import Mathlib

/-! CHIP-8 interpreter engine (`src/src/Chip8.hpp`, `src/src/Chip8.cpp`).

A shallow embedding of the class `tools::chip8::Chip8`.

* Machine integers are natural numbers; every store into a `uint8_t` is taken
  modulo 256 and every store into a `uint16_t` modulo 65536.
* The arrays `_memory`, `_v`, `_keys` and `_screen` are functions from the index
  to the cell. `_memory` has `MEMORY_SIZE` cells and `_keys` has `KEYS` cells; a
  subscript outside the array is undefined behaviour in C++ and is a `Fault`
  here. `_v` is only subscripted with a 4-bit value and `_screen` only with
  `y * 64 + x` where `x < 64`, `y < 32`, so those two are never out of range.
* `rand()` and `read_binary_file` are external: their results are parameters.
-/

set_option linter.dupNamespace false

namespace tools.chip8

/-! ## Constants of `Chip8.hpp` -/

/-- The macro `MEMORY_SIZE`, `0xfff`. -/
def MEMORY_SIZE : Nat := 0xfff

/-- The macro `PROGRAM_START`, `0x200`. -/
def PROGRAM_START : Nat := 0x200

/-- The macro `REGISTERS_SIZE`. -/
def REGISTERS_SIZE : Nat := 16

/-- The macro `KEYS`. -/
def KEYS : Nat := 16

/-- The macro `WIDTH`. -/
def WIDTH : Nat := 64

/-- The macro `HEIGHT`. -/
def HEIGHT : Nat := 32

/-- The macro `SCREEN_SIZE`, which expands to `WIDTH * HEIGHT`. -/
def SCREEN_SIZE : Nat := WIDTH * HEIGHT

/-- The macro `FONTSET_SIZE` of `Chip8.cpp`. -/
def FONTSET_SIZE : Nat := 80

/-- The table `fontset` of `Chip8.cpp`. -/
def fontset : List Nat :=
  [0xF0, 0x90, 0x90, 0x90, 0xF0,
   0x20, 0x60, 0x20, 0x20, 0x70,
   0xF0, 0x10, 0xF0, 0x80, 0xF0,
   0xF0, 0x10, 0xF0, 0x10, 0xF0,
   0x90, 0x90, 0xF0, 0x10, 0x10,
   0xF0, 0x80, 0xF0, 0x10, 0xF0,
   0xF0, 0x80, 0xF0, 0x90, 0xF0,
   0xF0, 0x10, 0x20, 0x40, 0x40,
   0xF0, 0x90, 0xF0, 0x90, 0xF0,
   0xF0, 0x90, 0xF0, 0x10, 0xF0,
   0xF0, 0x90, 0xF0, 0x90, 0x90,
   0xE0, 0x90, 0xE0, 0x90, 0xE0,
   0xF0, 0x80, 0x80, 0x80, 0xF0,
   0xE0, 0x90, 0x90, 0x90, 0xE0,
   0xF0, 0x80, 0xF0, 0x80, 0xF0,
   0xF0, 0x80, 0xF0, 0x80, 0x80]

/-- The value the expression `(uint16_t)(MEMORY_SIZE - PROGRAM_SIZE)` of
`load_rom` has. `PROGRAM_SIZE` is the macro text `MEMORY_SIZE-PROGRAM_START`
without parentheses, so the expression is
`(uint16_t)(0xfff - 0xfff-0x200)`: the `int` value `-0x200` converted to
`uint16_t`. -/
def rom_size_limit : Nat :=
  ((((MEMORY_SIZE : Int) - (MEMORY_SIZE : Int) - (PROGRAM_START : Int)) % 65536)).toNat

/-! ## State -/

/-- Undefined behaviour the C++ code can run into. -/
inductive Fault where
  /-- A read of `_memory[addr]` with `addr` outside the array. -/
  | oob_read (addr : Nat)
  /-- A write of `_memory[addr]` with `addr` outside the array. -/
  | oob_write (addr : Nat)
  /-- A subscript `_keys[idx]` with `idx` outside the array. -/
  | oob_key (idx : Nat)
  /-- A call of `_stack.back()` on an empty vector. -/
  | empty_stack
  deriving DecidableEq, Repr

/-- The data members of `Chip8` that outlive one call. The decoded fields
(`_msb`, `_addr`, `_const8`, `_const4`, `_x`, `_y`, `_vx`, `_vy`) are set by
`decode_execute` before every handler runs and are arguments of the handlers
here; `_tmp` and `_random` are written before they are read. -/
structure Chip8 where
  /-- The array `uint8_t _memory[MEMORY_SIZE]`. -/
  memory : Nat → Nat
  /-- The array `bool _screen[SCREEN_SIZE]`, row-major. -/
  screen : Nat → Bool
  /-- The array `uint8_t _v[REGISTERS_SIZE]`. -/
  v : Nat → Nat
  /-- The member `uint16_t _pc`. -/
  pc : Nat
  /-- The member `uint16_t _i`. -/
  i : Nat
  /-- The member `std::vector<uint16_t> _stack`; `back()` is the last element. -/
  stack : List Nat
  /-- The member `uint8_t _delay_timer`. -/
  delay_timer : Nat
  /-- The member `uint8_t _sound_timer`. -/
  sound_timer : Nat
  /-- The array `uint8_t _keys[KEYS]`. -/
  keys : Nat → Nat

/-- The subscript `_memory[addr]` read. -/
def read_memory (addr : Nat) (s : Chip8) : Except Fault Nat :=
  if addr < MEMORY_SIZE then .ok (s.memory addr) else .error (.oob_read addr)

/-- The assignment `_memory[addr] = val`. -/
def write_memory (addr val : Nat) (s : Chip8) : Except Fault Chip8 :=
  if addr < MEMORY_SIZE then
    .ok { s with memory := Function.update s.memory addr (val % 256) }
  else .error (.oob_write addr)

/-- The assignment `_v[x] = val`. -/
def set_v (x val : Nat) (s : Chip8) : Chip8 :=
  { s with v := Function.update s.v x (val % 256) }

/-! ## Construction, reset and loading -/

/-- The method `Chip8::cls`: `memset(_screen, 0, SCREEN_SIZE)`. -/
def cls (s : Chip8) : Chip8 :=
  { s with screen := fun _ => false }

/-- The method `Chip8::reset`. -/
def reset (s : Chip8) : Chip8 :=
  let s := { s with pc := PROGRAM_START }
  let s := { s with i := 0 }
  let s := { s with delay_timer := 0 }
  let s := { s with sound_timer := 0 }
  let s := { s with stack := [] }
  let s := cls s
  let s := { s with memory := fun _ => 0 }
  let s := { s with v := fun _ => 0 }
  { s with keys := fun _ => 0 }

/-- The constructor `Chip8::Chip8`, run on the uninitialised object `raw`:
`reset()`, then the loop `_memory[i] = fontset[i]` for `i < FONTSET_SIZE`. -/
def Chip8.Chip8 (raw : Chip8) : Chip8 :=
  (List.range FONTSET_SIZE).foldl
    (fun s i => { s with memory := Function.update s.memory i (fontset.getD i 0) })
    (reset raw)

/-- The copy loop of `load_rom`, `_memory[i + PROGRAM_START] = rom[i]`, from
index `i` on; the first argument is what is left of `rom` from index `i`. -/
def load_rom_loop : List Nat → Nat → Chip8 → Except Fault Chip8
  | [], _, s => .ok s
  | b :: rest, i, s =>
    match write_memory (i + PROGRAM_START) b s with
    | .ok s1 => load_rom_loop rest (i + 1) s1
    | .error e => .error e

/-- The method `Chip8::load_rom`; `rom` is what `read_binary_file(path)`
returned. The result is the returned `bool` and the state. -/
def load_rom (path : String) (rom : List Nat) (s : Chip8) : Except Fault (Bool × Chip8) :=
  if path.isEmpty then .ok (false, s)
  else if rom.isEmpty then .ok (false, s)
  else if rom.length > rom_size_limit then .ok (false, s)
  else
    match load_rom_loop rom 0 s with
    | .ok s1 => .ok (true, s1)
    | .error e => .error e

/-! ## Entry points other than `next_instruction` -/

/-- The method `Chip8::decrease_timers`. -/
def decrease_timers (s : Chip8) : Chip8 :=
  let s := if s.delay_timer > 0 then { s with delay_timer := s.delay_timer - 1 } else s
  if s.sound_timer > 0 then { s with sound_timer := s.sound_timer - 1 } else s

/-- The method `Chip8::key_pressed`: `_keys[key] = 1`. -/
def key_pressed (key : Nat) (s : Chip8) : Except Fault Chip8 :=
  if key < KEYS then .ok { s with keys := Function.update s.keys key 1 }
  else .error (.oob_key key)

/-- The method `Chip8::key_released`: `_keys[key] = 0`. -/
def key_released (key : Nat) (s : Chip8) : Except Fault Chip8 :=
  if key < KEYS then .ok { s with keys := Function.update s.keys key 0 }
  else .error (.oob_key key)

/-- The loop of `Chip8::get_pressed_key` from index `KEYS - n` on: the first
index whose key is non-zero, or `-1`. -/
def get_pressed_key_loop : Nat → Chip8 → Int
  | 0, _ => -1
  | n + 1, s =>
    if s.keys (KEYS - (n + 1)) ≠ 0 then ((KEYS - (n + 1) : Nat) : Int)
    else get_pressed_key_loop n s

/-- The method `Chip8::get_pressed_key`. -/
def get_pressed_key (s : Chip8) : Int :=
  get_pressed_key_loop KEYS s

/-! ## Fetch -/

/-- The method `Chip8::fetch`: the opcode and the state with `_pc` advanced. -/
def fetch (s : Chip8) : Except Fault (Nat × Chip8) :=
  match read_memory s.pc s with
  | .error e => .error e
  | .ok hi =>
    match read_memory (s.pc + 1) s with
    | .error e => .error e
    | .ok lo =>
      .ok (((hi <<< 8) ||| lo) % 65536, { s with pc := (s.pc + 2) % 65536 })

/-! ## Opcode handlers

`x` and `y` are the members `_x` and `_y`, so `*_vx` is `s.v x` and `*_vy` is
`s.v y`, read from the state at the point of the read; `VF` is `s.v 15`. -/

/-- The method `Chip8::ret`. -/
def ret (s : Chip8) : Except Fault Chip8 :=
  match s.stack.getLast? with
  | none => .error .empty_stack
  | some top => .ok { s with pc := top, stack := s.stack.dropLast }

/-- The method `Chip8::decode_op_0`. -/
def decode_op_0 (const8 : Nat) (s : Chip8) : Except Fault Chip8 :=
  match const8 with
  | 0xe0 => .ok (cls s)
  | 0xee => ret s
  | _ => .ok s

/-- The method `Chip8::jump`. -/
def jump (addr : Nat) (s : Chip8) : Chip8 :=
  { s with pc := addr }

/-- The method `Chip8::call`. -/
def call (addr : Nat) (s : Chip8) : Chip8 :=
  let s := { s with stack := s.stack ++ [s.pc] }
  { s with pc := addr }

/-- The method `Chip8::skip_eq`. -/
def skip_eq (x const8 : Nat) (s : Chip8) : Chip8 :=
  if s.v x = const8 then { s with pc := (s.pc + 2) % 65536 } else s

/-- The method `Chip8::skip_neq`. -/
def skip_neq (x const8 : Nat) (s : Chip8) : Chip8 :=
  if s.v x ≠ const8 then { s with pc := (s.pc + 2) % 65536 } else s

/-- The method `Chip8::skip_eq_x_y`. -/
def skip_eq_x_y (x y : Nat) (s : Chip8) : Chip8 :=
  if s.v x = s.v y then { s with pc := (s.pc + 2) % 65536 } else s

/-- The method `Chip8::set_vx`. -/
def set_vx (x const8 : Nat) (s : Chip8) : Chip8 :=
  set_v x const8 s

/-- The method `Chip8::add_to_vx`. -/
def add_to_vx (x const8 : Nat) (s : Chip8) : Chip8 :=
  set_v x (s.v x + const8) s

/-- The method `Chip8::vx_to_vy`: `*_vx = *_vy`. -/
def vx_to_vy (x y : Nat) (s : Chip8) : Chip8 :=
  set_v x (s.v y) s

/-- The method `Chip8::vx_or_vy`. -/
def vx_or_vy (x y : Nat) (s : Chip8) : Chip8 :=
  set_v x (s.v x ||| s.v y) s

/-- The method `Chip8::vx_and_vy`. -/
def vx_and_vy (x y : Nat) (s : Chip8) : Chip8 :=
  set_v x (s.v x &&& s.v y) s

/-- The method `Chip8::vx_xor_vy`. -/
def vx_xor_vy (x y : Nat) (s : Chip8) : Chip8 :=
  set_v x (s.v x ^^^ s.v y) s

/-- The method `Chip8::add_vy_to_vx`: `_tmp = *_vx + *_vy` into a `uint16_t`,
then `VF`, then `*_vx = _tmp`. -/
def add_vy_to_vx (x y : Nat) (s : Chip8) : Chip8 :=
  let tmp := (s.v x + s.v y) % 65536
  let s := set_v 15 (if tmp > 0xff then 1 else 0) s
  set_v x tmp s

/-- The method `Chip8::sub_vy_to_vx`: `VF` first, then `*_vx -= *_vy` on the
registers as they are after the write of `VF`. -/
def sub_vy_to_vx (x y : Nat) (s : Chip8) : Chip8 :=
  let s := set_v 15 (if s.v y > s.v x then 0 else 1) s
  set_v x (((s.v x : Int) - (s.v y : Int)) % 256).toNat s

/-- The method `Chip8::shift_vx_right`: `VF = *_vx & 0x1`, then `*_vx >>= 1`. -/
def shift_vx_right (x : Nat) (s : Chip8) : Chip8 :=
  let s := set_v 15 (s.v x &&& 0x1) s
  set_v x (s.v x >>> 1) s

/-- The method `Chip8::vy_minus_vx`: `VF` first, then `*_vx = *_vy - *_vx`. -/
def vy_minus_vx (x y : Nat) (s : Chip8) : Chip8 :=
  let s := set_v 15 (if s.v x > s.v y then 0 else 1) s
  set_v x (((s.v y : Int) - (s.v x : Int)) % 256).toNat s

/-- The method `Chip8::shift_vx_left`: `VF = (*_vx >> 7) & 0x1`, then
`*_vx <<= 1`. -/
def shift_vx_left (x : Nat) (s : Chip8) : Chip8 :=
  let s := set_v 15 ((s.v x >>> 7) &&& 0x1) s
  set_v x (s.v x <<< 1) s

/-- The method `Chip8::decode_op_8`. -/
def decode_op_8 (x y const4 : Nat) (s : Chip8) : Chip8 :=
  match const4 with
  | 0x0 => vx_to_vy x y s
  | 0x1 => vx_or_vy x y s
  | 0x2 => vx_and_vy x y s
  | 0x3 => vx_xor_vy x y s
  | 0x4 => add_vy_to_vx x y s
  | 0x5 => sub_vy_to_vx x y s
  | 0x6 => shift_vx_right x s
  | 0x7 => vy_minus_vx x y s
  | 0xe => shift_vx_left x s
  | _ => s

/-- The method `Chip8::skip_neq_x_y`. -/
def skip_neq_x_y (x y : Nat) (s : Chip8) : Chip8 :=
  if s.v x ≠ s.v y then { s with pc := (s.pc + 2) % 65536 } else s

/-- The method `Chip8::set_i`. -/
def set_i (addr : Nat) (s : Chip8) : Chip8 :=
  { s with i := addr }

/-- The method `Chip8::jump_v0`. -/
def jump_v0 (addr : Nat) (s : Chip8) : Chip8 :=
  { s with pc := (s.v 0 + addr) % 65536 }

/-- The method `Chip8::rand_and`; `rnd` is what `rand()` returned. -/
def rand_and (x const8 rnd : Nat) (s : Chip8) : Chip8 :=
  let random := rnd % 256
  set_v x (random &&& const8) s

/-- The body of the inner loop of `Chip8::draw` for one `xsprite`, where `line`
is `_memory[_i + ysprite]`. -/
def draw_pixel (x y ysprite line xsprite : Nat) (s : Chip8) : Chip8 :=
  let mask := (1 <<< (7 - xsprite)) % 256
  if line &&& mask ≠ 0 then
    let px := ((s.v x + xsprite) % WIDTH) % 256
    let py := ((s.v y + ysprite) % HEIGHT) % 256
    let screen_coords := (py * WIDTH + px) % 65536
    let s := if s.screen screen_coords = true then set_v 15 1 s else s
    { s with screen := Function.update s.screen screen_coords (!(s.screen screen_coords)) }
  else s

/-- The inner loop of `Chip8::draw`, `xsprite` from 0 to 7. -/
def draw_line (x y ysprite line : Nat) (s : Chip8) : Chip8 :=
  (List.range 8).foldl (fun s xsprite => draw_pixel x y ysprite line xsprite s) s

/-- The outer loop of `Chip8::draw` over the values of `ysprite` in the list. -/
def draw_rows (x y : Nat) : List Nat → Chip8 → Except Fault Chip8
  | [], s => .ok s
  | ysprite :: rest, s =>
    match read_memory (s.i + ysprite) s with
    | .error e => .error e
    | .ok line => draw_rows x y rest (draw_line x y ysprite line s)

/-- The method `Chip8::draw`: `VF = 0`, then the loop for
`ysprite < _const4`. -/
def draw (x y const4 : Nat) (s : Chip8) : Except Fault Chip8 :=
  draw_rows x y (List.range const4) (set_v 15 0 s)

/-- The method `Chip8::skip_key_eq`. -/
def skip_key_eq (x : Nat) (s : Chip8) : Except Fault Chip8 :=
  if s.v x < KEYS then
    .ok (if s.keys (s.v x) ≠ 0 then { s with pc := (s.pc + 2) % 65536 } else s)
  else .error (.oob_key (s.v x))

/-- The method `Chip8::skip_key_neq`. -/
def skip_key_neq (x : Nat) (s : Chip8) : Except Fault Chip8 :=
  if s.v x < KEYS then
    .ok (if s.keys (s.v x) = 0 then { s with pc := (s.pc + 2) % 65536 } else s)
  else .error (.oob_key (s.v x))

/-- The method `Chip8::decode_op_e`. -/
def decode_op_e (x const8 : Nat) (s : Chip8) : Except Fault Chip8 :=
  match const8 with
  | 0x9e => skip_key_eq x s
  | 0xa1 => skip_key_neq x s
  | _ => .ok s

/-- The method `Chip8::get_delay`. -/
def get_delay (x : Nat) (s : Chip8) : Chip8 :=
  set_v x s.delay_timer s

/-- The method `Chip8::get_key`. -/
def get_key (x : Nat) (s : Chip8) : Chip8 :=
  let pressed_key := get_pressed_key s
  if pressed_key = -1 then { s with pc := (((s.pc : Int) - 2) % 65536).toNat }
  else set_v x pressed_key.toNat s

/-- The method `Chip8::set_delay_timer`. -/
def set_delay_timer (x : Nat) (s : Chip8) : Chip8 :=
  { s with delay_timer := s.v x % 256 }

/-- The method `Chip8::set_sound_timer`. -/
def set_sound_timer (x : Nat) (s : Chip8) : Chip8 :=
  { s with sound_timer := s.v x % 256 }

/-- The method `Chip8::add_to_i`. -/
def add_to_i (x : Nat) (s : Chip8) : Chip8 :=
  { s with i := (s.i + s.v x) % 65536 }

/-- The method `Chip8::set_i_to_char`. -/
def set_i_to_char (x : Nat) (s : Chip8) : Chip8 :=
  { s with i := (s.v x * 5) % 65536 }

/-- The method `Chip8::store_decimal`. -/
def store_decimal (x : Nat) (s : Chip8) : Except Fault Chip8 :=
  match write_memory s.i (s.v x / 100) s with
  | .error e => .error e
  | .ok s1 =>
    match write_memory (s1.i + 1) ((s1.v x / 10) % 10) s1 with
    | .error e => .error e
    | .ok s2 => write_memory (s2.i + 2) (s2.v x % 10) s2

/-- The loop of `Chip8::dump_v`, `_memory[_i++] = _v[i]`, over the values of
`i` in the list. -/
def dump_v_loop : List Nat → Chip8 → Except Fault Chip8
  | [], s => .ok s
  | k :: rest, s =>
    match write_memory s.i (s.v k) s with
    | .error e => .error e
    | .ok s1 => dump_v_loop rest { s1 with i := (s1.i + 1) % 65536 }

/-- The method `Chip8::dump_v`: the loop for `i <= _x`. -/
def dump_v (x : Nat) (s : Chip8) : Except Fault Chip8 :=
  dump_v_loop (List.range (x + 1)) s

/-- The loop of `Chip8::load_v`, `_v[i] = _memory[_i++]`, over the values of
`i` in the list. -/
def load_v_loop : List Nat → Chip8 → Except Fault Chip8
  | [], s => .ok s
  | k :: rest, s =>
    match read_memory s.i s with
    | .error e => .error e
    | .ok b => load_v_loop rest (set_v k b { s with i := (s.i + 1) % 65536 })

/-- The method `Chip8::load_v`: the loop for `i <= _x`. -/
def load_v (x : Nat) (s : Chip8) : Except Fault Chip8 :=
  load_v_loop (List.range (x + 1)) s

/-- The method `Chip8::decode_op_f`. -/
def decode_op_f (x const8 : Nat) (s : Chip8) : Except Fault Chip8 :=
  match const8 with
  | 0x07 => .ok (get_delay x s)
  | 0x0a => .ok (get_key x s)
  | 0x15 => .ok (set_delay_timer x s)
  | 0x18 => .ok (set_sound_timer x s)
  | 0x1e => .ok (add_to_i x s)
  | 0x29 => .ok (set_i_to_char x s)
  | 0x33 => store_decimal x s
  | 0x55 => dump_v x s
  | 0x65 => load_v x s
  | _ => .ok s

/-! ## Decode and dispatch -/

/-- The field `_msb` of an opcode. -/
def op_msb (opcode : Nat) : Nat := (opcode >>> 12) &&& 0x000f

/-- The field `_addr` of an opcode. -/
def op_addr (opcode : Nat) : Nat := opcode &&& 0x0fff

/-- The field `_const8` of an opcode. -/
def op_const8 (opcode : Nat) : Nat := opcode &&& 0x00ff

/-- The field `_const4` of an opcode. -/
def op_const4 (opcode : Nat) : Nat := opcode &&& 0x000f

/-- The field `_x` of an opcode. -/
def op_x (opcode : Nat) : Nat := (opcode >>> 8) &&& 0x000f

/-- The field `_y` of an opcode. -/
def op_y (opcode : Nat) : Nat := (opcode >>> 4) &&& 0x000f

/-- The method `Chip8::decode_execute`; `rnd` is what `rand()` returns when
the handler calls it. -/
def decode_execute (opcode rnd : Nat) (s : Chip8) : Except Fault Chip8 :=
  let addr := op_addr opcode
  let const8 := op_const8 opcode
  let const4 := op_const4 opcode
  let x := op_x opcode
  let y := op_y opcode
  match op_msb opcode with
  | 0x0 => decode_op_0 const8 s
  | 0x1 => .ok (jump addr s)
  | 0x2 => .ok (call addr s)
  | 0x3 => .ok (skip_eq x const8 s)
  | 0x4 => .ok (skip_neq x const8 s)
  | 0x5 => .ok (skip_eq_x_y x y s)
  | 0x6 => .ok (set_vx x const8 s)
  | 0x7 => .ok (add_to_vx x const8 s)
  | 0x8 => .ok (decode_op_8 x y const4 s)
  | 0x9 => .ok (skip_neq_x_y x y s)
  | 0xa => .ok (set_i addr s)
  | 0xb => .ok (jump_v0 addr s)
  | 0xc => .ok (rand_and x const8 rnd s)
  | 0xd => draw x y const4 s
  | 0xe => decode_op_e x const8 s
  | 0xf => decode_op_f x const8 s
  | _ => .ok s

/-- The method `Chip8::next_instruction`: `decode_execute(fetch())`. -/
def next_instruction (rnd : Nat) (s : Chip8) : Except Fault Chip8 :=
  match fetch s with
  | .error e => .error e
  | .ok (opcode, s1) => decode_execute opcode rnd s1

/-- A state with every cell zero, used to build concrete machine states. -/
def blank : Chip8 :=
  { memory := fun _ => 0, screen := fun _ => false, v := fun _ => 0, pc := 0, i := 0,
    stack := [], delay_timer := 0, sound_timer := 0, keys := fun _ => 0 }

/-- A concrete state: the instruction `F033` (store-BCD of register 0) at the
program counter `0`, index register `0x300`, register 0 holding 157. -/
def store_bcd_state : Chip8 :=
  { blank with
    memory := fun a => if a = 0 then 0xF0 else if a = 1 then 0x33 else 0
    v := fun k => if k = 0 then 157 else 0
    i := 0x300 }

/-! ## Words of the specification of the draw instruction -/

/-- Spec side: the framebuffer index of the cell in column `(vx + c) mod 64` of
row `(vy + r) mod 32`, the framebuffer being row-major. -/
def sprite_cell (vx vy r c : Nat) : Nat :=
  ((vy + r) % HEIGHT) * WIDTH + (vx + c) % WIDTH

/-- Spec side: bit `7 - c` of the sprite byte of row `r`, `memory[index + r]`. -/
def sprite_bit (s : Chip8) (r c : Nat) : Bool :=
  (s.memory (s.i + r)).testBit (7 - c)

/-- The invariant of the loops of `draw` started in `s0` with `VF` cleared, when
the sprite bits at the positions `8 * r + c < p` (row-major) have been
processed: the cells of the set bits among them are toggled, no other cell is
changed, `VF` tells whether one of those cells was set in `s0`, and nothing
else is changed. -/
def DrawInv (s0 : Chip8) (x y p : Nat) (s : Chip8) : Prop :=
  s.memory = s0.memory ∧ s.i = s0.i ∧ s.pc = s0.pc ∧ s.stack = s0.stack ∧
  s.delay_timer = s0.delay_timer ∧ s.sound_timer = s0.sound_timer ∧ s.keys = s0.keys ∧
  (∀ k, k ≠ 15 → s.v k = s0.v k) ∧
  (∀ r c, c < 8 → 8 * r + c < p → sprite_bit s0 r c = true →
    s.screen (sprite_cell (s0.v x) (s0.v y) r c)
      = !s0.screen (sprite_cell (s0.v x) (s0.v y) r c)) ∧
  (∀ idx, (∀ r c, c < 8 → 8 * r + c < p → sprite_bit s0 r c = true →
    idx ≠ sprite_cell (s0.v x) (s0.v y) r c) → s.screen idx = s0.screen idx) ∧
  ((∃ r c, c < 8 ∧ 8 * r + c < p ∧ sprite_bit s0 r c = true ∧
      s0.screen (sprite_cell (s0.v x) (s0.v y) r c) = true) → s.v 15 = 1) ∧
  ((¬ ∃ r c, c < 8 ∧ 8 * r + c < p ∧ sprite_bit s0 r c = true ∧
      s0.screen (sprite_cell (s0.v x) (s0.v y) r c) = true) → s.v 15 = 0)

/-- A concrete state: a fresh engine with `V0 = 62`, `V1 = 30` and the index
register at the glyph of the digit 0, so that a five-row draw wraps around both
edges of the screen. -/
def draw_state : Chip8 :=
  set_v 1 30 (set_v 0 62 (Chip8.Chip8 blank))

/-- The states an engine reaches from construction by calls of `load_rom` and
`next_instruction` that return. -/
inductive Reachable : Chip8 → Prop where
  | fresh (raw : Chip8) : Reachable (Chip8.Chip8 raw)
  | load (path : String) (rom : List Nat) (s : Chip8) (b : Bool) (s1 : Chip8) :
      Reachable s → load_rom path rom s = .ok (b, s1) → Reachable s1
  | step (rnd : Nat) (s s1 : Chip8) :
      Reachable s → next_instruction rnd s = .ok s1 → Reachable s1

/-- Calls of `next_instruction` one after the other, as the loop of `main`
makes them, one for each element of `rnds` (what `rand()` returns in that
call); the run ends at the first fault. -/
def run : List Nat → Chip8 → Except Fault Chip8
  | [], s => .ok s
  | rnd :: rest, s =>
    match next_instruction rnd s with
    | .error e => .error e
    | .ok s1 => run rest s1

/-! ## Words of the specification of the dispatcher -/

/-- Spec side: the instruction words that match no handler: `0NNN` with a low
byte other than `0xE0` and `0xEE`, `8XYN` with `N` outside 0..7 and `0xE`,
`EXNN` with `NN` outside `0x9E`, `0xA1`, and `FXNN` with `NN` outside `0x07`,
`0x0A`, `0x15`, `0x18`, `0x1E`, `0x29`, `0x33`, `0x55`, `0x65`. -/
def unknown_opcode (opcode : Nat) : Prop :=
  (op_msb opcode = 0x0 ∧ op_const8 opcode ≠ 0xe0 ∧ op_const8 opcode ≠ 0xee) ∨
  (op_msb opcode = 0x8 ∧ 8 ≤ op_const4 opcode ∧ op_const4 opcode ≠ 0xe) ∨
  (op_msb opcode = 0xe ∧ op_const8 opcode ≠ 0x9e ∧ op_const8 opcode ≠ 0xa1) ∨
  (op_msb opcode = 0xf ∧ op_const8 opcode ≠ 0x07 ∧ op_const8 opcode ≠ 0x0a ∧
    op_const8 opcode ≠ 0x15 ∧ op_const8 opcode ≠ 0x18 ∧ op_const8 opcode ≠ 0x1e ∧
    op_const8 opcode ≠ 0x29 ∧ op_const8 opcode ≠ 0x33 ∧ op_const8 opcode ≠ 0x55 ∧
    op_const8 opcode ≠ 0x65)

/-- Spec side: the control-flow instructions: return (`00EE`), jump (`1NNN`),
call (`2NNN`), the conditional skips (`3XNN`, `4XNN`, `5XY0`, `9XY0`), jump
with offset (`BNNN`), the skips on a key (`EX9E`, `EXA1`) and get key
(`FX0A`). -/
def control_flow_opcode (opcode : Nat) : Prop :=
  (op_msb opcode = 0x0 ∧ op_const8 opcode = 0xee) ∨
  op_msb opcode = 0x1 ∨ op_msb opcode = 0x2 ∨ op_msb opcode = 0x3 ∨
  op_msb opcode = 0x4 ∨ op_msb opcode = 0x5 ∨ op_msb opcode = 0x9 ∨
  op_msb opcode = 0xb ∨
  (op_msb opcode = 0xe ∧ (op_const8 opcode = 0x9e ∨ op_const8 opcode = 0xa1)) ∨
  (op_msb opcode = 0xf ∧ op_const8 opcode = 0x0a)

/-- A concrete state: `blank` with the two bytes `hi`, `lo` of one instruction
at addresses 0 and 1, where the program counter of `blank` points. -/
def with_instruction (hi lo : Nat) : Chip8 :=
  { blank with memory := fun a => if a = 0 then hi else if a = 1 then lo else 0 }

/-- A concrete state: register `k` holds `k + 10` for `k` in 0..15 and the index
register is `0x300`. -/
def dump_state : Chip8 :=
  { blank with
    v := fun k => if k < 16 then k + 10 else 0
    i := 0x300 }

/-- A concrete state: `V0 = 62`, `V1 = 30`, index register `0x300` and the
one-row sprite byte `0x20` (only bit 5 set) there, on an empty screen. -/
def single_bit_state : Chip8 :=
  { blank with
    memory := fun a => if a = 0x300 then 0x20 else 0
    v := fun k => if k = 0 then 62 else if k = 1 then 30 else 0
    i := 0x300 }

/-! ## Loading -/

theorem load_rom_loop_ok (rom : List Nat) : ∀ (i : Nat) (s : Chip8),
    i + rom.length + PROGRAM_START ≤ MEMORY_SIZE →
    load_rom_loop rom i s = .ok
      { s with
        memory := fun a =>
          if i + PROGRAM_START ≤ a ∧ a < i + PROGRAM_START + rom.length
          then rom.getD (a - (i + PROGRAM_START)) 0 % 256 else s.memory a } := by
  induction rom with
  | nil =>
    intro i s _
    have hm : (fun a => if i + PROGRAM_START ≤ a ∧ a < i + PROGRAM_START + ([] : List Nat).length
        then ([] : List Nat).getD (a - (i + PROGRAM_START)) 0 % 256 else s.memory a) = s.memory := by
      funext a
      rw [if_neg]
      simp only [List.length_nil]
      omega
    rw [hm]
    rfl
  | cons b rest ih =>
    intro i s h
    simp only [List.length_cons] at h
    have hb : i + PROGRAM_START < MEMORY_SIZE := by omega
    simp only [load_rom_loop, write_memory, if_pos hb]
    rw [ih (i + 1) _ (by omega)]
    congr 2
    funext a
    simp only [List.length_cons, Function.update_apply]
    by_cases h1 : a = i + PROGRAM_START
    · subst h1
      simp
    · by_cases h2 : i + PROGRAM_START ≤ a ∧ a < i + PROGRAM_START + (rest.length + 1)
      · have h3 : i + 1 + PROGRAM_START ≤ a ∧ a < i + 1 + PROGRAM_START + rest.length := by omega
        rw [if_pos h2, if_pos h3]
        have h4 : a - (i + PROGRAM_START) = (a - (i + 1 + PROGRAM_START)) + 1 := by omega
        rw [h4]
        simp
      · have h3 : ¬ (i + 1 + PROGRAM_START ≤ a ∧ a < i + 1 + PROGRAM_START + rest.length) := by omega
        rw [if_neg h2, if_neg h3, if_neg h1]

theorem load_rom_loop_fault (rom : List Nat) : ∀ (i : Nat) (s : Chip8),
    i + PROGRAM_START ≤ MEMORY_SIZE → MEMORY_SIZE < i + rom.length + PROGRAM_START →
    load_rom_loop rom i s = .error (.oob_write MEMORY_SIZE) := by
  induction rom with
  | nil => intro i s h1 h3; simp at h3; omega
  | cons b rest ih =>
    intro i s h1 h3
    simp only [List.length_cons] at h3
    by_cases h4 : i + PROGRAM_START < MEMORY_SIZE
    · simp only [load_rom_loop, write_memory, if_pos h4]
      exact ih (i + 1) _ (by omega) (by omega)
    · have h5 : i + PROGRAM_START = MEMORY_SIZE := by omega
      simp only [load_rom_loop, write_memory, h5, lt_irrefl, if_false]

/-- C1. `load_rom` on an empty image returns `false` and leaves the state as it
was, and so does an image of more than 65024 bytes; but the bound the code
compares with is `rom_size_limit = 65024`, not 3583: on every image of 3584 to
65024 bytes the call does not return `false`, the copy loop runs and writes
`_memory[4095]`, one past the end of the array. -/
theorem load_rom_oversized_not_rejected (path : String) (rom : List Nat) (s : Chip8)
    (hpath : path.isEmpty = false) (hlo : 3583 < rom.length) (hhi : rom.length ≤ 65024) :
    load_rom path rom s = .error (.oob_write 4095) ∧
    load_rom path [] s = .ok (false, s) ∧
    (∀ big : List Nat, 65024 < big.length → load_rom path big s = .ok (false, s)) := by
  have hlim : rom_size_limit = 65024 := by decide
  refine ⟨?_, ?_, ?_⟩
  · have hne : rom.isEmpty = false := by
      cases rom with
      | nil => simp at hlo
      | cons b rest => rfl
    have hle : ¬ (rom.length > rom_size_limit) := by rw [hlim]; omega
    have hf := load_rom_loop_fault rom 0 s (by decide)
      (by simp only [MEMORY_SIZE, PROGRAM_START]; omega)
    simp only [load_rom, hpath, hne, if_neg hle, hf, MEMORY_SIZE]
    simp
  · simp [load_rom, hpath]
  · intro big hbig
    have hne : big.isEmpty = false := by
      cases big with
      | nil => simp at hbig
      | cons b rest => rfl
    have hgt : big.length > rom_size_limit := by rw [hlim]; omega
    simp [load_rom, hpath, hne, hgt]

/-- Witness of `load_rom_oversized_not_rejected`: an image of 4000 zero bytes. -/
theorem load_rom_oversized_not_rejected_witness :
    ("rom.ch8" : String).isEmpty = false ∧ 3583 < (List.replicate 4000 0).length ∧
    (List.replicate 4000 0).length ≤ 65024 ∧
    load_rom "rom.ch8" (List.replicate 4000 0) (Chip8.Chip8 blank) = .error (.oob_write 4095) :=
  ⟨by decide, by rw [List.length_replicate]; omega, by rw [List.length_replicate]; omega,
   (load_rom_oversized_not_rejected "rom.ch8" (List.replicate 4000 0) (Chip8.Chip8 blank)
      (by decide) (by rw [List.length_replicate]; omega)
      (by rw [List.length_replicate]; omega)).1⟩

/-- C2. For a non-empty path and an image `rom` of `L` bytes, `0 < L ≤ 3583`,
`load_rom` returns `true`, `_memory[0x200 + i]` is byte `i` of the image for
every `i < L`, every byte below `0x200` or from `0x200 + L` on is unchanged, and
so is every other member. -/
theorem load_rom_ok (path : String) (rom : List Nat) (s : Chip8)
    (hpath : path.isEmpty = false) (hbytes : ∀ b ∈ rom, b < 256)
    (hpos : 0 < rom.length) (hle : rom.length ≤ 3583) :
    ∃ s1, load_rom path rom s = .ok (true, s1) ∧
      (∀ (i : Nat) (h : i < rom.length), s1.memory (0x200 + i) = rom[i]) ∧
      (∀ a, a < 0x200 ∨ 0x200 + rom.length ≤ a → s1.memory a = s.memory a) ∧
      s1.screen = s.screen ∧ s1.v = s.v ∧ s1.pc = s.pc ∧ s1.i = s.i ∧ s1.stack = s.stack ∧
      s1.delay_timer = s.delay_timer ∧ s1.sound_timer = s.sound_timer ∧ s1.keys = s.keys := by
  have hlim : rom_size_limit = 65024 := by decide
  have hne : rom.isEmpty = false := by
    cases rom with
    | nil => simp at hpos
    | cons b rest => rfl
  have hgt : ¬ (rom.length > rom_size_limit) := by rw [hlim]; omega
  have hok := load_rom_loop_ok rom 0 s (by simp only [MEMORY_SIZE, PROGRAM_START]; omega)
  have hload : load_rom path rom s = .ok (true,
      { s with
        memory := fun a =>
          if 0 + PROGRAM_START ≤ a ∧ a < 0 + PROGRAM_START + rom.length
          then rom.getD (a - (0 + PROGRAM_START)) 0 % 256 else s.memory a }) := by
    simp only [load_rom, hpath, hne, if_neg hgt, hok]
    simp
  refine ⟨_, hload, ?_, ?_, rfl, rfl, rfl, rfl, rfl, rfl, rfl, rfl⟩
  · intro i h
    have h1 : 0 + PROGRAM_START ≤ 0x200 + i ∧ 0x200 + i < 0 + PROGRAM_START + rom.length := by
      simp only [PROGRAM_START]; omega
    have h2 : 0x200 + i - (0 + PROGRAM_START) = i := by simp only [PROGRAM_START]; omega
    simp only [if_pos h1, h2, List.getD_eq_getElem _ 0 h]
    exact Nat.mod_eq_of_lt (hbytes _ (List.getElem_mem h))
  · intro a ha
    have h1 : ¬ (0 + PROGRAM_START ≤ a ∧ a < 0 + PROGRAM_START + rom.length) := by
      simp only [PROGRAM_START]; omega
    simp only [if_neg h1]

/-- Witness of `load_rom_ok`: a two-byte image loaded into a fresh engine. -/
theorem load_rom_ok_witness :
    ∃ s1, load_rom "rom.ch8" [0x12, 0x00] (Chip8.Chip8 blank) = .ok (true, s1) ∧
      s1.memory 0x200 = 0x12 ∧ s1.memory 0x201 = 0x00 ∧ s1.memory 0 = 0xF0 := by
  obtain ⟨s1, h1, h2, h3, _⟩ := load_rom_ok "rom.ch8" [0x12, 0x00] (Chip8.Chip8 blank)
    (by decide) (by decide) (by decide) (by decide)
  exact ⟨s1, h1, h2 0 (by decide), h2 1 (by decide), (h3 0 (Or.inl (by decide))).trans rfl⟩

/-! ## Reset and the size of memory -/

/-- C3. After `reset()` the program counter is `0x200`, the index register, the
timers, the registers, the key flags and the framebuffer are zero and the stack
is empty, but every memory byte is zero, the font region included:
`_memory[0]` is `0`, not the first font byte `0xF0`. -/
theorem reset_clears_font (s : Chip8) :
    (reset s).pc = 0x200 ∧ (reset s).i = 0 ∧
    (reset s).delay_timer = 0 ∧ (reset s).sound_timer = 0 ∧
    (∀ k, (reset s).v k = 0) ∧ (∀ k, (reset s).keys k = 0) ∧
    (∀ c, (reset s).screen c = false) ∧ (reset s).stack = [] ∧
    (∀ a, (reset s).memory a = 0) ∧
    fontset.getD 0 0 = 0xF0 ∧ (reset s).memory 0 ≠ fontset.getD 0 0 := by
  refine ⟨rfl, rfl, rfl, rfl, fun _ => rfl, fun _ => rfl, fun _ => rfl, rfl, fun _ => rfl,
    rfl, ?_⟩
  show (0 : Nat) ≠ 0xF0
  decide

/-- C4. The array `_memory` has `MEMORY_SIZE = 4095` cells, so after
`set_i` with the 12-bit operand `0xFFF` the index register is `0xFFF` and a read
or a write of `_memory[_i]` is outside the array, as in the register load `F065`
and the register dump `F055` run next. -/
theorem set_i_0xFFF_outside_memory (rnd : Nat) (s : Chip8) :
    MEMORY_SIZE = 4095 ∧
    decode_execute 0xAFFF rnd s = .ok (set_i 0xFFF s) ∧ (set_i 0xFFF s).i = 0xFFF ∧
    read_memory (set_i 0xFFF s).i (set_i 0xFFF s) = .error (.oob_read 0xFFF) ∧
    (∀ val, write_memory (set_i 0xFFF s).i val (set_i 0xFFF s) = .error (.oob_write 0xFFF)) ∧
    decode_execute 0xF065 rnd (set_i 0xFFF s) = .error (.oob_read 0xFFF) ∧
    decode_execute 0xF055 rnd (set_i 0xFFF s) = .error (.oob_write 0xFFF) :=
  ⟨rfl, rfl, rfl, rfl, fun _ => rfl, rfl, rfl⟩

/-! ## Memory writes of one instruction -/

theorem fetch_error (s : Chip8) (e : Fault) (h : fetch s = .error e) :
    ∃ a, e = .oob_read a := by
  unfold fetch read_memory at h
  by_cases h1 : s.pc < MEMORY_SIZE
  · by_cases h2 : s.pc + 1 < MEMORY_SIZE
    · simp [h1, h2] at h
    · simp only [if_pos h1, if_neg h2] at h
      exact ⟨_, (Except.error.inj h).symm⟩
  · simp only [if_neg h1] at h
    exact ⟨_, (Except.error.inj h).symm⟩

theorem fetch_ok (s : Chip8) (opcode : Nat) (s1 : Chip8) (h : fetch s = .ok (opcode, s1)) :
    s1 = { s with pc := (s.pc + 2) % 65536 } ∧
    opcode = ((s.memory s.pc <<< 8) ||| s.memory (s.pc + 1)) % 65536 ∧
    s.pc + 1 < MEMORY_SIZE := by
  unfold fetch read_memory at h
  by_cases h1 : s.pc < MEMORY_SIZE
  · by_cases h2 : s.pc + 1 < MEMORY_SIZE
    · simp only [if_pos h1, if_pos h2] at h
      have h3 := Except.ok.inj h
      exact ⟨(congrArg Prod.snd h3).symm, (congrArg Prod.fst h3).symm, h2⟩
    · simp [h1, h2] at h
  · simp [h1] at h

theorem draw_rows_error (x y : Nat) (rows : List Nat) : ∀ (s : Chip8) (e : Fault),
    draw_rows x y rows s = .error e → ∃ a, e = .oob_read a := by
  induction rows with
  | nil => intro s e h; simp [draw_rows] at h
  | cons r rest ih =>
    intro s e h
    unfold draw_rows read_memory at h
    by_cases h1 : s.i + r < MEMORY_SIZE
    · simp only [if_pos h1] at h
      exact ih _ e h
    · simp only [if_neg h1] at h
      exact ⟨_, (Except.error.inj h).symm⟩

theorem load_v_loop_error (ks : List Nat) : ∀ (s : Chip8) (e : Fault),
    load_v_loop ks s = .error e → ∃ a, e = .oob_read a := by
  induction ks with
  | nil => intro s e h; simp [load_v_loop] at h
  | cons k rest ih =>
    intro s e h
    unfold load_v_loop read_memory at h
    by_cases h1 : s.i < MEMORY_SIZE
    · simp only [if_pos h1] at h
      exact ih _ e h
    · simp only [if_neg h1] at h
      exact ⟨_, (Except.error.inj h).symm⟩

theorem dump_v_loop_in_bounds (ks : List Nat) : ∀ (s : Chip8),
    s.i + ks.length ≤ MEMORY_SIZE → ∃ s1, dump_v_loop ks s = .ok s1 := by
  induction ks with
  | nil => intro s _; exact ⟨s, rfl⟩
  | cons k rest ih =>
    intro s h
    simp only [List.length_cons] at h
    have h1 : s.i < MEMORY_SIZE := by omega
    simp only [dump_v_loop, write_memory, if_pos h1]
    apply ih
    have h2 : (s.i + 1) % 65536 = s.i + 1 := by
      apply Nat.mod_eq_of_lt
      simp only [MEMORY_SIZE] at h1
      omega
    simp only [h2]
    omega

theorem store_decimal_in_bounds (x : Nat) (s : Chip8) (h : s.i + 2 < MEMORY_SIZE) :
    ∃ s1, store_decimal x s = .ok s1 := by
  have h0 : s.i < MEMORY_SIZE := by omega
  have h1 : s.i + 1 < MEMORY_SIZE := by omega
  simp only [store_decimal, write_memory, if_pos h0, if_pos h1, if_pos h]
  exact ⟨_, rfl⟩

theorem decode_execute_no_oob_write (opcode rnd : Nat) (s : Chip8)
    (hbcd : op_msb opcode = 0xf → op_const8 opcode = 0x33 → s.i + 2 < MEMORY_SIZE)
    (hdump : op_msb opcode = 0xf → op_const8 opcode = 0x55 →
      s.i + op_x opcode < MEMORY_SIZE) (a : Nat) :
    decode_execute opcode rnd s ≠ .error (.oob_write a) := by
  intro h
  dsimp only [decode_execute] at h
  split at h
  · dsimp only [decode_op_0] at h
    split at h
    · simp at h
    · unfold ret at h
      split at h <;> simp at h
    · simp at h
  all_goals try exact absurd h (by simp)
  · obtain ⟨b, hb⟩ := draw_rows_error _ _ _ _ _ h
    simp at hb
  · dsimp only [decode_op_e, skip_key_eq, skip_key_neq] at h
    split at h
    · split at h <;> simp at h
    · split at h <;> simp at h
    · simp at h
  · rename_i hmsb
    dsimp only [decode_op_f] at h
    split at h
    all_goals try exact absurd h (by simp)
    · rename_i hc
      obtain ⟨s1, hs1⟩ := store_decimal_in_bounds (op_x opcode) s (hbcd hmsb hc)
      rw [hs1] at h
      simp at h
    · rename_i hc
      obtain ⟨s1, hs1⟩ := dump_v_loop_in_bounds (List.range (op_x opcode + 1)) s
        (by rw [List.length_range]; have := hdump hmsb hc; omega)
      unfold dump_v at h
      rw [hs1] at h
      simp at h
    · obtain ⟨b, hb⟩ := load_v_loop_error _ _ _ h
      simp at hb

/-- C5, as stated, fails: the engine constructed, loaded with the program
`6001 AFFF F01E F033` and stepped three times has index register `0x1000`, and
the next step (store-BCD) writes `_memory[0x1000]`, outside the array. -/
theorem step_writes_outside_memory :
    ∃ s, Reachable s ∧ s.i = 0x1000 ∧ MEMORY_SIZE ≤ 0x1000 ∧
      next_instruction 0 s = .error (.oob_write 0x1000) := by
  obtain ⟨s1, s2, s3, s4, h1, h2, h3, h4, h5, h6⟩ :
      ∃ s1 s2 s3 s4,
        load_rom "rom.ch8" [0x60, 0x01, 0xAF, 0xFF, 0xF0, 0x1E, 0xF0, 0x33] (Chip8.Chip8 blank)
          = .ok (true, s1) ∧
        next_instruction 0 s1 = .ok s2 ∧ next_instruction 0 s2 = .ok s3 ∧
        next_instruction 0 s3 = .ok s4 ∧ s4.i = 0x1000 ∧
        next_instruction 0 s4 = .error (.oob_write 0x1000) :=
    ⟨_, _, _, _, rfl, rfl, rfl, rfl, rfl, rfl⟩
  have r1 : Reachable s1 := Reachable.load _ _ _ _ _ (Reachable.fresh blank) h1
  have r2 : Reachable s2 := Reachable.step _ _ _ r1 h2
  have r3 : Reachable s3 := Reachable.step _ _ _ r2 h3
  have r4 : Reachable s4 := Reachable.step _ _ _ r3 h4
  exact ⟨s4, r4, h5, by decide, h6⟩

/-- C5, amended. In a state whose index register `I` has `I + 2` inside memory
when the instruction at the program counter is store-BCD (`FX33`), and `I + X`
inside memory when it is the register dump (`FX55`), no memory write of
`next_instruction` is outside the array. -/
theorem step_writes_inside_memory (rnd : Nat) (s : Chip8)
    (hbcd : ∀ opcode s1, fetch s = .ok (opcode, s1) → op_msb opcode = 0xf →
      op_const8 opcode = 0x33 → s.i + 2 < MEMORY_SIZE)
    (hdump : ∀ opcode s1, fetch s = .ok (opcode, s1) → op_msb opcode = 0xf →
      op_const8 opcode = 0x55 → s.i + op_x opcode < MEMORY_SIZE) :
    ∀ a, next_instruction rnd s ≠ .error (.oob_write a) := by
  intro a h
  unfold next_instruction at h
  split at h
  · rename_i e he
    obtain ⟨b, hb⟩ := fetch_error s e he
    rw [hb] at h
    simp at h
  · rename_i opcode s1 hf
    have hs1 := (fetch_ok s opcode s1 hf).1
    have hi : s1.i = s.i := by rw [hs1]
    exact decode_execute_no_oob_write opcode rnd s1
      (fun h1 h2 => by rw [hi]; exact hbcd opcode s1 hf h1 h2)
      (fun h1 h2 => by rw [hi]; exact hdump opcode s1 hf h1 h2) a h

/-- Witness of `step_writes_inside_memory`: store-BCD of register 0 at index
register `0x300`. -/
theorem step_writes_inside_memory_witness :
    fetch store_bcd_state = .ok (0xF033, { store_bcd_state with pc := 2 }) ∧
    next_instruction 0 store_bcd_state ≠ .error (.oob_write 0x302) :=
  ⟨rfl, step_writes_inside_memory 0 store_bcd_state
    (fun _ _ _ _ _ => by decide)
    (fun opcode s1 hf _ hc => by
      have h := (fetch_ok _ _ _ hf).2.1
      subst h
      exact absurd hc (by decide))
    0x302⟩

/-! ## Arithmetic instructions of group 8 -/

/-- C6, as stated, fails for `X = 15`: `8F04` with `VF = 3` and `V0 = 4` leaves
7 in register 15, the wrapped sum written after the flag, where the claim wants
the flag 0. -/
theorem add_vy_to_vx_flag_overwritten :
    op_msb 0x8F04 = 8 ∧ op_const4 0x8F04 = 4 ∧ op_x 0x8F04 = 15 ∧ op_y 0x8F04 = 0 ∧
    (set_v 0 4 (set_v 15 3 blank)).v 15 = 3 ∧ (set_v 0 4 (set_v 15 3 blank)).v 0 = 4 ∧
    ∃ s1, decode_execute 0x8F04 0 (set_v 0 4 (set_v 15 3 blank)) = .ok s1 ∧ s1.v 15 = 7 ∧
      ¬ (s1.v 15 = if 3 + 4 > 255 then 1 else 0) :=
  ⟨rfl, rfl, rfl, rfl, rfl, rfl, _, rfl, rfl, by decide⟩

/-- C6, amended to `X` in 0..14. For the instruction `8XY4` with `X ≤ 14` and
any `Y`, with `a` and `b` the bytes in registers `X` and `Y` before, afterwards
register 15 is 1 if `a + b > 255` and 0 otherwise, and register `X` holds
`(a + b) mod 256`. -/
theorem add_vy_to_vx_spec (opcode rnd : Nat) (s : Chip8)
    (hmsb : op_msb opcode = 8) (hc4 : op_const4 opcode = 4)
    (hx : op_x opcode ≤ 14)
    (ha : s.v (op_x opcode) < 256) (hb : s.v (op_y opcode) < 256) :
    ∃ s1, decode_execute opcode rnd s = .ok s1 ∧
      s1.v 15 = (if s.v (op_x opcode) + s.v (op_y opcode) > 255 then 1 else 0) ∧
      s1.v (op_x opcode) = (s.v (op_x opcode) + s.v (op_y opcode)) % 256 := by
  have h15x : (15 : Nat) ≠ op_x opcode := by omega
  have hd : decode_execute opcode rnd s = .ok (add_vy_to_vx (op_x opcode) (op_y opcode) s) := by
    simp only [decode_execute, hmsb, decode_op_8, hc4]
  refine ⟨_, hd, ?_, ?_⟩
  · simp only [add_vy_to_vx, set_v, Function.update_apply, if_neg h15x, if_true]
    split_ifs <;> omega
  · simp only [add_vy_to_vx, set_v, Function.update_apply, if_true]
    omega

/-- Witness of `add_vy_to_vx_spec`: `8124` with `V1 = 0xFF`, `V2 = 0x01` gives
`V1 = 0x00` and flag 1. -/
theorem add_vy_to_vx_spec_witness :
    ∃ s1, decode_execute 0x8124 0 (set_v 2 0x01 (set_v 1 0xFF blank)) = .ok s1 ∧
      s1.v 15 = 1 ∧ s1.v 1 = 0x00 := by
  obtain ⟨s1, h1, h2, h3⟩ := add_vy_to_vx_spec 0x8124 0 (set_v 2 0x01 (set_v 1 0xFF blank))
    (by decide) (by decide) (by decide) (by decide) (by decide)
  exact ⟨s1, h1, h2.trans rfl, h3.trans rfl⟩

/-- C7. The claim holds for `Y ≤ 14` and fails on the code for `Y = 15`: `80F5`
with `V0 = 5` and `VF = 2` writes the flag 1 into `VF` first and then runs
`*_vx -= *_vy` on that, leaving `V0 = 4` where the claim wants `5 - 2 = 3` (the
flag, 1, is as claimed). The sibling handler of `8XY4` reads both operands into
`_tmp` before it writes the flag: `80F4` in the same state gives
`V0 = 5 + 2 = 7`. -/
theorem sub_vy_to_vx_operand_overwritten :
    op_msb 0x80F5 = 8 ∧ op_const4 0x80F5 = 5 ∧ op_x 0x80F5 = 0 ∧ op_y 0x80F5 = 15 ∧
    (set_v 15 2 (set_v 0 5 blank)).v 0 = 5 ∧ (set_v 15 2 (set_v 0 5 blank)).v 15 = 2 ∧
    (∃ s1, decode_execute 0x80F5 0 (set_v 15 2 (set_v 0 5 blank)) = .ok s1 ∧ s1.v 0 = 4 ∧
      s1.v 15 = 1 ∧ ¬ ((s1.v 0 : Int) = ((5 : Int) - 2) % 256)) ∧
    (∃ s2, decode_execute 0x80F4 0 (set_v 15 2 (set_v 0 5 blank)) = .ok s2 ∧ s2.v 0 = 7 ∧
      s2.v 0 = (5 + 2) % 256) :=
  ⟨rfl, rfl, rfl, rfl, rfl, rfl, ⟨_, rfl, rfl, rfl, by decide⟩, ⟨_, rfl, rfl, rfl⟩⟩

/-- The subtraction `8XY5` away from the flag register: with `X ≤ 14` and
`Y ≤ 14`, and `a` and `b` the values of registers `X` and `Y` before, afterwards
register `X` holds `(a - b) mod 256` and register 15 is 0 if `b > a` and 1
otherwise. -/
theorem sub_vy_to_vx_spec (opcode rnd : Nat) (s : Chip8)
    (hmsb : op_msb opcode = 8) (hc4 : op_const4 opcode = 5)
    (hx : op_x opcode ≤ 14) (hy : op_y opcode ≤ 14) :
    ∃ s1, decode_execute opcode rnd s = .ok s1 ∧
      (s1.v (op_x opcode) : Int) = ((s.v (op_x opcode) : Int) - (s.v (op_y opcode) : Int)) % 256 ∧
      s1.v 15 = (if s.v (op_y opcode) > s.v (op_x opcode) then 0 else 1) := by
  have h15x : (15 : Nat) ≠ op_x opcode := by omega
  have hx15 : op_x opcode ≠ 15 := by omega
  have hy15 : op_y opcode ≠ 15 := by omega
  have hd : decode_execute opcode rnd s = .ok (sub_vy_to_vx (op_x opcode) (op_y opcode) s) := by
    simp only [decode_execute, hmsb, decode_op_8, hc4]
  refine ⟨_, hd, ?_, ?_⟩
  · simp only [sub_vy_to_vx, set_v, Function.update_apply, if_neg hx15, if_neg hy15, if_true]
    omega
  · simp only [sub_vy_to_vx, set_v, Function.update_apply, if_neg h15x, if_true]
    split_ifs <;> omega

/-- Witness of `sub_vy_to_vx_spec`: `8125` with `V1 = 0x01`, `V2 = 0x02` gives
`V1 = 0xFF` and flag 0. -/
theorem sub_vy_to_vx_spec_witness :
    ∃ s1, decode_execute 0x8125 0 (set_v 2 0x02 (set_v 1 0x01 blank)) = .ok s1 ∧
      (s1.v 1 : Int) = 0xFF ∧ s1.v 15 = 0 := by
  obtain ⟨s1, h1, h2, h3⟩ := sub_vy_to_vx_spec 0x8125 0 (set_v 2 0x02 (set_v 1 0x01 blank))
    (by decide) (by decide) (by decide) (by decide)
  exact ⟨s1, h1, h2.trans (by decide), h3.trans rfl⟩

/-- C8. For the instruction `8XY7` with `X ≤ 14` and `Y ≤ 14`, with `a` and `b`
the values of registers `X` and `Y` before, afterwards register `X` holds
`(b - a) mod 256`, register 15 is 0 if `a > b` and 1 otherwise, and register
`Y` is unchanged when `Y` differs from `X`. -/
theorem vy_minus_vx_spec (opcode rnd : Nat) (s : Chip8)
    (hmsb : op_msb opcode = 8) (hc4 : op_const4 opcode = 7)
    (hx : op_x opcode ≤ 14) (hy : op_y opcode ≤ 14) :
    ∃ s1, decode_execute opcode rnd s = .ok s1 ∧
      (s1.v (op_x opcode) : Int) = ((s.v (op_y opcode) : Int) - (s.v (op_x opcode) : Int)) % 256 ∧
      s1.v 15 = (if s.v (op_x opcode) > s.v (op_y opcode) then 0 else 1) ∧
      (op_y opcode ≠ op_x opcode → s1.v (op_y opcode) = s.v (op_y opcode)) := by
  have h15x : (15 : Nat) ≠ op_x opcode := by omega
  have hx15 : op_x opcode ≠ 15 := by omega
  have hy15 : op_y opcode ≠ 15 := by omega
  have hd : decode_execute opcode rnd s = .ok (vy_minus_vx (op_x opcode) (op_y opcode) s) := by
    simp only [decode_execute, hmsb, decode_op_8, hc4]
  refine ⟨_, hd, ?_, ?_, ?_⟩
  · simp only [vy_minus_vx, set_v, Function.update_apply, if_neg hx15, if_neg hy15, if_true]
    omega
  · simp only [vy_minus_vx, set_v, Function.update_apply, if_neg h15x, if_true]
    split_ifs <;> omega
  · intro hyx
    simp only [vy_minus_vx, set_v, Function.update_apply, if_neg hyx, if_neg hy15]

/-- Witness of `vy_minus_vx_spec`: `8127` with `V1 = 0x05`, `V2 = 0x02` gives
`V1 = 0xFD`, flag 0 and `V2` as it was. -/
theorem vy_minus_vx_spec_witness :
    ∃ s1, decode_execute 0x8127 0 (set_v 2 0x02 (set_v 1 0x05 blank)) = .ok s1 ∧
      (s1.v 1 : Int) = 0xFD ∧ s1.v 15 = 0 ∧ s1.v 2 = 0x02 := by
  obtain ⟨s1, h1, h2, h3, h4⟩ := vy_minus_vx_spec 0x8127 0 (set_v 2 0x02 (set_v 1 0x05 blank))
    (by decide) (by decide) (by decide) (by decide)
  exact ⟨s1, h1, h2.trans (by decide), h3.trans rfl, (h4 (by decide)).trans rfl⟩

/-- C9. For `X ≤ 14` and a byte `a` in register `X`: after shift right (`8XY6`)
register 15 is `a mod 2` and register `X` is `a div 2`, so
`2 * newX + flag = a`; after shift left (`8XYE`) register 15 is `a div 128`,
bit 7 of `a`, and register `X` is `(2 * a) mod 256`, so
`256 * flag + newX = 2 * a`. -/
theorem shift_vx_spec (opr opl rnd : Nat) (s : Chip8)
    (hmsbr : op_msb opr = 8) (hc4r : op_const4 opr = 6) (hxr : op_x opr ≤ 14)
    (har : s.v (op_x opr) < 256)
    (hmsbl : op_msb opl = 8) (hc4l : op_const4 opl = 0xe) (hxl : op_x opl ≤ 14)
    (hal : s.v (op_x opl) < 256) :
    (∃ s1, decode_execute opr rnd s = .ok s1 ∧
      s1.v 15 = s.v (op_x opr) % 2 ∧ s1.v (op_x opr) = s.v (op_x opr) / 2 ∧
      2 * s1.v (op_x opr) + s1.v 15 = s.v (op_x opr)) ∧
    (∃ s2, decode_execute opl rnd s = .ok s2 ∧
      s2.v 15 = s.v (op_x opl) / 128 ∧ s2.v (op_x opl) = (2 * s.v (op_x opl)) % 256 ∧
      256 * s2.v 15 + s2.v (op_x opl) = 2 * s.v (op_x opl)) := by
  have hdr : decode_execute opr rnd s = .ok (shift_vx_right (op_x opr) s) := by
    simp only [decode_execute, hmsbr, decode_op_8, hc4r]
  have hdl : decode_execute opl rnd s = .ok (shift_vx_left (op_x opl) s) := by
    simp only [decode_execute, hmsbl, decode_op_8, hc4l]
  have h15r : (15 : Nat) ≠ op_x opr := by omega
  have hr15 : op_x opr ≠ 15 := by omega
  have h15l : (15 : Nat) ≠ op_x opl := by omega
  have hl15 : op_x opl ≠ 15 := by omega
  have e1 : ∀ a : Nat, a &&& 1 = a % 2 := Nat.and_one_is_mod
  have e2 : ∀ a : Nat, a >>> 1 = a / 2 := fun a => by simp [Nat.shiftRight_eq_div_pow]
  have e3 : ∀ a : Nat, a >>> 7 = a / 128 := fun a => by simp [Nat.shiftRight_eq_div_pow]
  have e4 : ∀ a : Nat, a <<< 1 = 2 * a := fun a => by simp [Nat.shiftLeft_eq]; omega
  have r15 : (shift_vx_right (op_x opr) s).v 15 = s.v (op_x opr) % 2 := by
    simp only [shift_vx_right, set_v, Function.update_apply, if_neg h15r, if_true, e1]
    omega
  have rx : (shift_vx_right (op_x opr) s).v (op_x opr) = s.v (op_x opr) / 2 := by
    simp only [shift_vx_right, set_v, Function.update_apply, if_neg hr15, if_true, e2]
    omega
  have l15 : (shift_vx_left (op_x opl) s).v 15 = s.v (op_x opl) / 128 := by
    simp only [shift_vx_left, set_v, Function.update_apply, if_neg h15l, if_true, e1, e3]
    omega
  have lx : (shift_vx_left (op_x opl) s).v (op_x opl) = (2 * s.v (op_x opl)) % 256 := by
    simp only [shift_vx_left, set_v, Function.update_apply, if_neg hl15, if_true, e4]
  refine ⟨⟨_, hdr, r15, rx, ?_⟩, ⟨_, hdl, l15, lx, ?_⟩⟩
  · rw [r15, rx]; omega
  · rw [l15, lx]; omega

/-- Witness of `shift_vx_spec`: `8106` and `810E` with `V1 = 0x81`. -/
theorem shift_vx_spec_witness :
    (∃ s1, decode_execute 0x8106 0 (set_v 1 0x81 blank) = .ok s1 ∧
      s1.v 15 = 1 ∧ s1.v 1 = 0x40) ∧
    (∃ s2, decode_execute 0x810E 0 (set_v 1 0x81 blank) = .ok s2 ∧
      s2.v 15 = 1 ∧ s2.v 1 = 0x02) := by
  obtain ⟨⟨s1, h1, h2, h3, _⟩, ⟨s2, h4, h5, h6, _⟩⟩ :=
    shift_vx_spec 0x8106 0x810E 0 (set_v 1 0x81 blank)
      (by decide) (by decide) (by decide) (by decide)
      (by decide) (by decide) (by decide) (by decide)
  exact ⟨⟨s1, h1, h2.trans rfl, h3.trans rfl⟩, ⟨s2, h4, h5.trans rfl, h6.trans rfl⟩⟩

/-! ## The draw instruction -/

theorem and_two_pow_ne_zero (n k : Nat) : n &&& 2 ^ k ≠ 0 ↔ n.testBit k = true := by
  constructor
  · intro h
    by_contra hb
    apply h
    apply Nat.eq_of_testBit_eq
    intro j
    simp only [Nat.testBit_and, Nat.testBit_two_pow, Nat.zero_testBit]
    by_cases hkj : k = j
    · subst hkj
      simp [hb]
    · simp [hkj]
  · intro hb h
    have h2 := congrArg (fun m => m.testBit k) h
    simp [Nat.testBit_and, Nat.testBit_two_pow, hb] at h2

theorem draw_mask_test (line c : Nat) (hc : c < 8) :
    line &&& ((1 <<< (7 - c)) % 256) ≠ 0 ↔ line.testBit (7 - c) = true := by
  have h1 : (1 <<< (7 - c)) % 256 = 2 ^ (7 - c) := by
    rw [Nat.one_shiftLeft]
    apply Nat.mod_eq_of_lt
    calc 2 ^ (7 - c) ≤ 2 ^ 7 := Nat.pow_le_pow_right (by decide) (by omega)
      _ < 256 := by decide
  rw [h1]
  exact and_two_pow_ne_zero line (7 - c)

theorem sprite_cell_inj (vx vy r c r2 c2 : Nat) (hr : r < 16) (hr2 : r2 < 16)
    (hc : c < 8) (hc2 : c2 < 8)
    (h : sprite_cell vx vy r c = sprite_cell vx vy r2 c2) : r = r2 ∧ c = c2 := by
  simp only [sprite_cell, WIDTH, HEIGHT] at h
  omega

theorem draw_coords_eq (vx vy r c : Nat) :
    ((vy + r) % HEIGHT % 256 * WIDTH + (vx + c) % WIDTH % 256) % 65536
      = sprite_cell vx vy r c := by
  simp only [sprite_cell, WIDTH, HEIGHT]
  omega

theorem draw_pixel_inv (s0 s : Chip8) (x y p r c : Nat)
    (hx : x ≤ 14) (hy : y ≤ 14) (hr : r < 16) (hc : c < 8) (hp : p = 8 * r + c)
    (h : DrawInv s0 x y p s) :
    DrawInv s0 x y (p + 1) (draw_pixel x y r (s0.memory (s0.i + r)) c s) := by
  unfold DrawInv at h ⊢
  obtain ⟨hm, hi, hpc, hst, hdt, hsnd, hk, hv, hA, hB, hC1, hC0⟩ := h
  have hvx : s.v x = s0.v x := hv x (by omega)
  have hvy : s.v y = s0.v y := hv y (by omega)
  by_cases hbit : sprite_bit s0 r c = true
  · have hmask : s0.memory (s0.i + r) &&& ((1 <<< (7 - c)) % 256) ≠ 0 :=
      (draw_mask_test _ c hc).mpr hbit
    have hfresh : s.screen (sprite_cell (s0.v x) (s0.v y) r c)
        = s0.screen (sprite_cell (s0.v x) (s0.v y) r c) := by
      apply hB
      intro r2 c2 hc2 hlt _ heq
      have h2 := sprite_cell_inj _ _ _ _ _ _ hr (by omega) hc hc2 heq
      omega
    have hearlier : ∀ r2 c2, c2 < 8 → 8 * r2 + c2 < p →
        sprite_cell (s0.v x) (s0.v y) r2 c2 ≠ sprite_cell (s0.v x) (s0.v y) r c := by
      intro r2 c2 hc2 hlt heq
      have h2 := sprite_cell_inj _ _ _ _ _ _ (by omega) hr hc2 hc heq
      omega
    have hlast : ∀ r2 c2, c2 < 8 → 8 * r2 + c2 < p + 1 → ¬ (8 * r2 + c2 < p) →
        r2 = r ∧ c2 = c := by
      intro r2 c2 hc2 hlt hnot
      omega
    simp only [draw_pixel, if_pos hmask, hvx, hvy, draw_coords_eq]
    by_cases hset : s.screen (sprite_cell (s0.v x) (s0.v y) r c) = true
    · simp only [if_pos hset]
      refine ⟨hm, hi, hpc, hst, hdt, hsnd, hk, ?_, ?_, ?_, ?_, ?_⟩
      · intro k hk15
        simp only [set_v, Function.update_apply, if_neg hk15]
        exact hv k hk15
      · intro r2 c2 hc2 hlt hb2
        by_cases hpos : 8 * r2 + c2 < p
        · simp only [set_v, Function.update_apply, if_neg (hearlier r2 c2 hc2 hpos)]
          exact hA r2 c2 hc2 hpos hb2
        · obtain ⟨h3, h4⟩ := hlast r2 c2 hc2 hlt hpos
          subst h3
          subst h4
          simp only [set_v, Function.update_apply, if_true]
          rw [hfresh]
      · intro idx hidx
        have hne : idx ≠ sprite_cell (s0.v x) (s0.v y) r c := hidx r c hc (by omega) hbit
        simp only [set_v, Function.update_apply, if_neg hne]
        exact hB idx (fun r2 c2 hc2 hlt hb2 => hidx r2 c2 hc2 (by omega) hb2)
      · intro _
        simp only [set_v, Function.update_apply, if_true]
      · intro hnone
        exact absurd ⟨r, c, hc, by omega, hbit, hfresh ▸ hset⟩ hnone
    · simp only [if_neg hset]
      refine ⟨hm, hi, hpc, hst, hdt, hsnd, hk, hv, ?_, ?_, ?_, ?_⟩
      · intro r2 c2 hc2 hlt hb2
        by_cases hpos : 8 * r2 + c2 < p
        · simp only [Function.update_apply, if_neg (hearlier r2 c2 hc2 hpos)]
          exact hA r2 c2 hc2 hpos hb2
        · obtain ⟨h3, h4⟩ := hlast r2 c2 hc2 hlt hpos
          subst h3
          subst h4
          simp only [Function.update_apply, if_true]
          rw [hfresh]
      · intro idx hidx
        have hne : idx ≠ sprite_cell (s0.v x) (s0.v y) r c := hidx r c hc (by omega) hbit
        simp only [Function.update_apply, if_neg hne]
        exact hB idx (fun r2 c2 hc2 hlt hb2 => hidx r2 c2 hc2 (by omega) hb2)
      · rintro ⟨r2, c2, hc2, hlt, hb2, hs2⟩
        by_cases hpos : 8 * r2 + c2 < p
        · exact hC1 ⟨r2, c2, hc2, hpos, hb2, hs2⟩
        · obtain ⟨h3, h4⟩ := hlast r2 c2 hc2 hlt hpos
          subst h3
          subst h4
          exact absurd (hfresh.trans hs2) hset
      · intro hnone
        apply hC0
        rintro ⟨r2, c2, hc2, hlt, hb2, hs2⟩
        exact hnone ⟨r2, c2, hc2, by omega, hb2, hs2⟩
  · have hmask : ¬ (s0.memory (s0.i + r) &&& ((1 <<< (7 - c)) % 256) ≠ 0) :=
      fun h2 => hbit ((draw_mask_test _ c hc).mp h2)
    simp only [draw_pixel, if_neg hmask]
    refine ⟨hm, hi, hpc, hst, hdt, hsnd, hk, hv, ?_, ?_, ?_, ?_⟩
    · intro r2 c2 hc2 hlt hb2
      by_cases hpos : 8 * r2 + c2 < p
      · exact hA r2 c2 hc2 hpos hb2
      · have h5 : r2 = r ∧ c2 = c := by omega
        obtain ⟨h3, h4⟩ := h5
        subst h3
        subst h4
        exact absurd hb2 hbit
    · intro idx hidx
      exact hB idx (fun r2 c2 hc2 hlt hb2 => hidx r2 c2 hc2 (by omega) hb2)
    · rintro ⟨r2, c2, hc2, hlt, hb2, hs2⟩
      by_cases hpos : 8 * r2 + c2 < p
      · exact hC1 ⟨r2, c2, hc2, hpos, hb2, hs2⟩
      · have h5 : r2 = r ∧ c2 = c := by omega
        obtain ⟨h3, h4⟩ := h5
        subst h3
        subst h4
        exact absurd hb2 hbit
    · intro hnone
      apply hC0
      rintro ⟨r2, c2, hc2, hlt, hb2, hs2⟩
      exact hnone ⟨r2, c2, hc2, by omega, hb2, hs2⟩

theorem draw_line_inv (s0 s : Chip8) (x y r : Nat)
    (hx : x ≤ 14) (hy : y ≤ 14) (hr : r < 16) (h : DrawInv s0 x y (8 * r) s) :
    DrawInv s0 x y (8 * (r + 1)) (draw_line x y r (s0.memory (s0.i + r)) s) := by
  have e : draw_line x y r (s0.memory (s0.i + r)) s
      = draw_pixel x y r (s0.memory (s0.i + r)) 7
          (draw_pixel x y r (s0.memory (s0.i + r)) 6
            (draw_pixel x y r (s0.memory (s0.i + r)) 5
              (draw_pixel x y r (s0.memory (s0.i + r)) 4
                (draw_pixel x y r (s0.memory (s0.i + r)) 3
                  (draw_pixel x y r (s0.memory (s0.i + r)) 2
                    (draw_pixel x y r (s0.memory (s0.i + r)) 1
                      (draw_pixel x y r (s0.memory (s0.i + r)) 0 s))))))) := rfl
  rw [e]
  have h0 := draw_pixel_inv s0 _ x y (8 * r) r 0 hx hy hr (by decide) (by omega) h
  have h1 := draw_pixel_inv s0 _ x y (8 * r + 1) r 1 hx hy hr (by decide) (by omega) h0
  have h2 := draw_pixel_inv s0 _ x y (8 * r + 1 + 1) r 2 hx hy hr (by decide) (by omega) h1
  have h3 := draw_pixel_inv s0 _ x y (8 * r + 1 + 1 + 1) r 3 hx hy hr (by decide) (by omega) h2
  have h4 := draw_pixel_inv s0 _ x y (8 * r + 1 + 1 + 1 + 1) r 4 hx hy hr (by decide)
    (by omega) h3
  have h5 := draw_pixel_inv s0 _ x y (8 * r + 1 + 1 + 1 + 1 + 1) r 5 hx hy hr (by decide)
    (by omega) h4
  have h6 := draw_pixel_inv s0 _ x y (8 * r + 1 + 1 + 1 + 1 + 1 + 1) r 6 hx hy hr (by decide)
    (by omega) h5
  have h7 := draw_pixel_inv s0 _ x y (8 * r + 1 + 1 + 1 + 1 + 1 + 1 + 1) r 7 hx hy hr
    (by decide) (by omega) h6
  have hp : 8 * r + 1 + 1 + 1 + 1 + 1 + 1 + 1 + 1 = 8 * (r + 1) := by omega
  rw [hp] at h7
  exact h7

theorem draw_rows_inv (s0 : Chip8) (x y : Nat) (hx : x ≤ 14) (hy : y ≤ 14) (n : Nat) :
    ∀ (r : Nat) (s : Chip8), r + n ≤ 16 → s0.i + r + n ≤ MEMORY_SIZE →
      DrawInv s0 x y (8 * r) s →
      ∃ s1, draw_rows x y (List.range' r n) s = .ok s1 ∧ DrawInv s0 x y (8 * (r + n)) s1 := by
  induction n with
  | zero =>
    intro r s _ _ h
    exact ⟨s, rfl, h⟩
  | succ n ih =>
    intro r s hr hmem h
    have hi : s.i = s0.i := h.2.1
    have hm : s.memory = s0.memory := h.1
    have hb : s0.i + r < MEMORY_SIZE := by omega
    have hline := draw_line_inv s0 s x y r hx hy (by omega) h
    obtain ⟨s1, h1, h2⟩ := ih (r + 1) _ (by omega) (by omega) hline
    refine ⟨s1, ?_, ?_⟩
    · simp only [List.range', draw_rows, read_memory, hm, hi, if_pos hb]
      exact h1
    · have hp : 8 * (r + 1 + n) = 8 * (r + (n + 1)) := by omega
      rw [← hp]
      exact h2

theorem op_const4_lt (opcode : Nat) : op_const4 opcode < 16 :=
  Nat.and_lt_two_pow opcode (by decide : 0x000f < 2 ^ 4)

/-- C10. For the instruction `DXYN` with `X ≤ 14`, `Y ≤ 14` and the `N` sprite
bytes `memory[index .. index + N - 1]` inside memory, with `vx`, `vy` the values
of registers `X`, `Y`: the draw returns; every cell
`((vx + c) mod 64, (vy + r) mod 32)` with `r < N`, `c < 8` and bit `7 - c` of
`memory[index + r]` set is toggled; every cell that is not one of those is
unchanged; register 15 ends as 1 if one of the toggled cells was set before the
draw and as 0 otherwise; no other register and no other member changes. -/
theorem draw_spec (opcode rnd : Nat) (s : Chip8)
    (hmsb : op_msb opcode = 0xd) (hx : op_x opcode ≤ 14) (hy : op_y opcode ≤ 14)
    (hmem : s.i + op_const4 opcode ≤ MEMORY_SIZE) :
    ∃ s1, decode_execute opcode rnd s = .ok s1 ∧
      (∀ r c, r < op_const4 opcode → c < 8 → sprite_bit s r c = true →
        s1.screen (sprite_cell (s.v (op_x opcode)) (s.v (op_y opcode)) r c)
          = !s.screen (sprite_cell (s.v (op_x opcode)) (s.v (op_y opcode)) r c)) ∧
      (∀ idx, (∀ r c, r < op_const4 opcode → c < 8 → sprite_bit s r c = true →
        idx ≠ sprite_cell (s.v (op_x opcode)) (s.v (op_y opcode)) r c) →
        s1.screen idx = s.screen idx) ∧
      ((∃ r c, r < op_const4 opcode ∧ c < 8 ∧ sprite_bit s r c = true ∧
          s.screen (sprite_cell (s.v (op_x opcode)) (s.v (op_y opcode)) r c) = true) →
        s1.v 15 = 1) ∧
      ((¬ ∃ r c, r < op_const4 opcode ∧ c < 8 ∧ sprite_bit s r c = true ∧
          s.screen (sprite_cell (s.v (op_x opcode)) (s.v (op_y opcode)) r c) = true) →
        s1.v 15 = 0) ∧
      (∀ k, k ≠ 15 → s1.v k = s.v k) ∧
      s1.memory = s.memory ∧ s1.i = s.i ∧ s1.pc = s.pc ∧ s1.stack = s.stack ∧
      s1.delay_timer = s.delay_timer ∧ s1.sound_timer = s.sound_timer ∧
      s1.keys = s.keys := by
  have hn := op_const4_lt opcode
  have hd : decode_execute opcode rnd s
      = draw_rows (op_x opcode) (op_y opcode) (List.range' 0 (op_const4 opcode))
          (set_v 15 0 s) := by
    simp only [decode_execute, hmsb, draw, List.range_eq_range']
  have hinit : DrawInv s (op_x opcode) (op_y opcode) (8 * 0) (set_v 15 0 s) := by
    unfold DrawInv
    refine ⟨rfl, rfl, rfl, rfl, rfl, rfl, rfl, ?_, ?_, ?_, ?_, ?_⟩
    · intro k hk
      simp only [set_v, Function.update_apply, if_neg hk]
    · intro r c _ hlt
      omega
    · intro idx _
      rfl
    · rintro ⟨r, c, _, hlt, _⟩
      omega
    · intro _
      simp only [set_v, Function.update_apply, if_true]
  obtain ⟨s1, h1, h2⟩ := draw_rows_inv s (op_x opcode) (op_y opcode) hx hy (op_const4 opcode)
    0 (set_v 15 0 s) (by omega) (by omega) hinit
  unfold DrawInv at h2
  obtain ⟨hm, hi, hpc, hst, hdt, hsnd, hk, hv, hA, hB, hC1, hC0⟩ := h2
  refine ⟨s1, hd.trans h1, ?_, ?_, ?_, ?_, hv, hm, hi, hpc, hst, hdt, hsnd, hk⟩
  · intro r c hr hc hb
    exact hA r c hc (by omega) hb
  · intro idx hidx
    exact hB idx (fun r c hc hlt hb => hidx r c (by omega) hc hb)
  · rintro ⟨r, c, hr, hc, hb, hs⟩
    exact hC1 ⟨r, c, hc, by omega, hb, hs⟩
  · intro hnone
    apply hC0
    rintro ⟨r, c, hc, hlt, hb, hs⟩
    exact hnone ⟨r, c, by omega, hc, hb, hs⟩

/-- Witness of `draw_spec`: `D015` draws the glyph of 0 at column 62, row 30 of
an empty screen; the cells (62, 30), (0, 30) after the wrap of the column and
(62, 0) after the wrap of the row are set and the flag is 0. -/
theorem draw_spec_witness :
    ∃ s1, decode_execute 0xD015 0 draw_state = .ok s1 ∧
      s1.screen (30 * 64 + 62) = true ∧ s1.screen (30 * 64 + 0) = true ∧
      s1.screen (0 * 64 + 62) = true ∧ s1.v 15 = 0 := by
  obtain ⟨s1, h1, h2, _, _, h5, _⟩ := draw_spec 0xD015 0 draw_state
    (by decide) (by decide) (by decide) (by decide)
  refine ⟨s1, h1, ?_, ?_, ?_, ?_⟩
  · exact h2 0 0 (by decide) (by decide) rfl
  · exact h2 0 2 (by decide) (by decide) rfl
  · exact h2 2 0 (by decide) (by decide) rfl
  · apply h5
    rintro ⟨r, c, _, _, _, hs⟩
    exact Bool.noConfusion hs

/-! ## Timers -/

/-- C19. `decrease_timers` turns a delay timer `d` into `d - 1` if `d > 0` and
leaves 0 at 0, does the same to the sound timer, so that each timer drops by at
most 1 and a zero timer does not wrap to 255, and changes no other member. -/
theorem decrease_timers_spec (s : Chip8) :
    (decrease_timers s).delay_timer = (if s.delay_timer > 0 then s.delay_timer - 1 else 0) ∧
    (decrease_timers s).sound_timer = (if s.sound_timer > 0 then s.sound_timer - 1 else 0) ∧
    (decrease_timers s).delay_timer ≤ s.delay_timer ∧
    s.delay_timer ≤ (decrease_timers s).delay_timer + 1 ∧
    (decrease_timers s).sound_timer ≤ s.sound_timer ∧
    s.sound_timer ≤ (decrease_timers s).sound_timer + 1 ∧
    (decrease_timers s).memory = s.memory ∧ (decrease_timers s).screen = s.screen ∧
    (decrease_timers s).v = s.v ∧ (decrease_timers s).pc = s.pc ∧
    (decrease_timers s).i = s.i ∧ (decrease_timers s).stack = s.stack ∧
    (decrease_timers s).keys = s.keys := by
  by_cases hd : s.delay_timer > 0 <;> by_cases hs : s.sound_timer > 0
  · have e : decrease_timers s
        = { s with delay_timer := s.delay_timer - 1, sound_timer := s.sound_timer - 1 } := by
      simp only [decrease_timers, if_pos hd, if_pos hs]
    rw [e, if_pos hd, if_pos hs]
    exact ⟨rfl, rfl, Nat.sub_le _ _, by show s.delay_timer ≤ s.delay_timer - 1 + 1; omega,
      Nat.sub_le _ _, by show s.sound_timer ≤ s.sound_timer - 1 + 1; omega,
      rfl, rfl, rfl, rfl, rfl, rfl, rfl⟩
  · have e : decrease_timers s = { s with delay_timer := s.delay_timer - 1 } := by
      simp only [decrease_timers, if_pos hd, if_neg hs]
    rw [e, if_pos hd, if_neg hs]
    exact ⟨rfl, by show s.sound_timer = 0; omega, Nat.sub_le _ _,
      by show s.delay_timer ≤ s.delay_timer - 1 + 1; omega, Nat.le_refl _,
      Nat.le_succ _, rfl, rfl, rfl, rfl, rfl, rfl, rfl⟩
  · have e : decrease_timers s = { s with sound_timer := s.sound_timer - 1 } := by
      simp only [decrease_timers, if_neg hd, if_pos hs]
    rw [e, if_neg hd, if_pos hs]
    exact ⟨by show s.delay_timer = 0; omega, rfl, Nat.le_refl _, Nat.le_succ _,
      Nat.sub_le _ _, by show s.sound_timer ≤ s.sound_timer - 1 + 1; omega,
      rfl, rfl, rfl, rfl, rfl, rfl, rfl⟩
  · have e : decrease_timers s = s := by
      simp only [decrease_timers, if_neg hd, if_neg hs]
    rw [e, if_neg hd, if_neg hs]
    exact ⟨by omega, by omega, Nat.le_refl _, Nat.le_succ _, Nat.le_refl _, Nat.le_succ _,
      rfl, rfl, rfl, rfl, rfl, rfl, rfl⟩

/-! ## The freshly constructed engine -/

theorem font_loop_memory (n : Nat) (s : Chip8) :
    (List.range n).foldl
      (fun s i => { s with memory := Function.update s.memory i (fontset.getD i 0) }) s
    = { s with memory := fun a => if a < n then fontset.getD a 0 else s.memory a } := by
  induction n with
  | zero => rfl
  | succ n ih =>
    rw [List.range_succ, List.foldl_append, ih]
    simp only [List.foldl_cons, List.foldl_nil]
    congr 1
    funext a
    simp only [Function.update_apply]
    by_cases h1 : a = n
    · subst h1
      simp
    · by_cases h2 : a < n
      · have h3 : a < n + 1 := by omega
        simp only [if_neg h1, if_pos h2, if_pos h3]
      · have h3 : ¬ a < n + 1 := by omega
        simp only [if_neg h1, if_neg h2, if_neg h3]

/-- C20. A freshly constructed engine has program counter `0x200`, the 80 bytes
of `fontset`, the sixteen five-byte glyphs of 0..F in that order, at the
addresses `0x000..0x04F`, so that byte `j` of the glyph of the digit `d` is at
`5 * d + j` and `5 * d` is what `set_i_to_char` puts into the index register
for a register holding `d`; every byte from `0x050` on is zero; registers,
index register, timers, key flags and framebuffer are zero and the stack is
empty. -/
theorem constructor_spec (raw : Chip8) :
    (Chip8.Chip8 raw).pc = 0x200 ∧
    (∀ a, a < 0x50 → (Chip8.Chip8 raw).memory a = fontset.getD a 0) ∧
    (∀ d j, d < 16 → j < 5 →
      (Chip8.Chip8 raw).memory (5 * d + j) = (fontset.drop (5 * d)).getD j 0) ∧
    (∀ (x d : Nat) (s : Chip8), d < 16 → s.v x = d → (set_i_to_char x s).i = 5 * d) ∧
    (∀ a, 0x50 ≤ a → (Chip8.Chip8 raw).memory a = 0) ∧
    (∀ k, (Chip8.Chip8 raw).v k = 0) ∧ (Chip8.Chip8 raw).i = 0 ∧
    (Chip8.Chip8 raw).delay_timer = 0 ∧ (Chip8.Chip8 raw).sound_timer = 0 ∧
    (∀ k, (Chip8.Chip8 raw).keys k = 0) ∧ (∀ c, (Chip8.Chip8 raw).screen c = false) ∧
    (Chip8.Chip8 raw).stack = [] ∧ fontset.length = 80 := by
  have e : Chip8.Chip8 raw
      = { reset raw with
          memory := fun a => if a < FONTSET_SIZE then fontset.getD a 0 else (reset raw).memory a } :=
    font_loop_memory FONTSET_SIZE (reset raw)
  have hmem : ∀ a, a < 0x50 → (Chip8.Chip8 raw).memory a = fontset.getD a 0 := by
    intro a ha
    rw [e]
    have h1 : a < FONTSET_SIZE := ha
    simp only [if_pos h1]
  refine ⟨by rw [e]; rfl, hmem, ?_, ?_, ?_, by rw [e]; exact fun _ => rfl, by rw [e]; rfl,
    by rw [e]; rfl, by rw [e]; rfl, by rw [e]; exact fun _ => rfl,
    by rw [e]; exact fun _ => rfl, by rw [e]; rfl, rfl⟩
  · intro d j hd hj
    rw [hmem (5 * d + j) (by omega)]
    simp only [List.getD_eq_getElem?_getD, List.getElem?_drop]
  · intro x d s hd hv
    simp only [set_i_to_char, hv]
    omega
  · intro a ha
    rw [e]
    have h1 : ¬ a < FONTSET_SIZE := by simp only [FONTSET_SIZE]; omega
    simp only [if_neg h1]
    rfl

/-- Witness of `constructor_spec`: the glyph of the digit 1 starts at address 5
and a register holding 1 sends the index register there. -/
theorem constructor_spec_witness :
    (Chip8.Chip8 blank).memory (5 * 1 + 0) = 0x20 ∧
    (set_i_to_char 3 (set_v 3 1 blank)).i = 5 * 1 ∧ (Chip8.Chip8 blank).memory 0x50 = 0 :=
  ⟨((constructor_spec blank).2.2.1 1 0 (by decide) (by decide)).trans rfl,
   (constructor_spec blank).2.2.2.1 3 1 (set_v 3 1 blank) (by decide) rfl,
   (constructor_spec blank).2.2.2.2.1 0x50 (by decide)⟩

/-! ## One step: fetch, then dispatch -/

theorem next_instruction_of_fetch (rnd : Nat) (s : Chip8) (opcode : Nat) (s1 : Chip8)
    (hf : fetch s = .ok (opcode, s1)) :
    next_instruction rnd s = decode_execute opcode rnd { s with pc := s.pc + 2 } ∧
    s.pc + 1 < MEMORY_SIZE ∧ s1 = { s with pc := s.pc + 2 } := by
  obtain ⟨h1, _, h3⟩ := fetch_ok s opcode s1 hf
  have h4 : (s.pc + 2) % 65536 = s.pc + 2 := by
    apply Nat.mod_eq_of_lt
    simp only [MEMORY_SIZE] at h3
    omega
  rw [h4] at h1
  refine ⟨?_, h3, h1⟩
  simp only [next_instruction, hf, h1]

/-! ## Get key -/

theorem get_pressed_key_loop_none (s : Chip8) (n : Nat) :
    n ≤ KEYS → (∀ j, KEYS - n ≤ j → j < KEYS → s.keys j = 0) →
    get_pressed_key_loop n s = -1 := by
  induction n with
  | zero => intro _ _; rfl
  | succ n ih =>
    intro hn hk
    have h0 : s.keys (KEYS - (n + 1)) = 0 := hk _ (Nat.le_refl _) (by simp only [KEYS]; omega)
    simp only [get_pressed_key_loop, h0, ne_eq, not_true_eq_false, if_false]
    exact ih (by omega) (fun j h1 h2 => hk j (by omega) h2)

theorem get_pressed_key_loop_first (s : Chip8) (k : Nat) (hk : k < KEYS)
    (hset : s.keys k ≠ 0) (n : Nat) :
    n ≤ KEYS → KEYS - n ≤ k → (∀ j, KEYS - n ≤ j → j < k → s.keys j = 0) →
    get_pressed_key_loop n s = (k : Int) := by
  induction n with
  | zero => intro _ h1 _; omega
  | succ n ih =>
    intro hn h1 h2
    by_cases h3 : KEYS - (n + 1) = k
    · simp only [get_pressed_key_loop, h3, ne_eq, hset, not_false_eq_true, if_true]
    · have h0 : s.keys (KEYS - (n + 1)) = 0 := h2 _ (Nat.le_refl _) (by omega)
      simp only [get_pressed_key_loop, h0, ne_eq, not_true_eq_false, if_false]
      exact ih (by omega) (by omega) (fun j h4 h5 => h2 j (by omega) h5)

/-- C12. In a state whose 16 key flags are all clear and whose program counter
points at an `FX0A` instruction, `next_instruction` returns the very same
state: program counter, registers, memory, index register, stack, timers and
framebuffer are as before; so every run of repeated steps returns that state
too. -/
theorem get_key_waits (rnd : Nat) (s : Chip8) (opcode : Nat) (s1 : Chip8)
    (hf : fetch s = .ok (opcode, s1))
    (hmsb : op_msb opcode = 0xf) (hc8 : op_const8 opcode = 0x0a)
    (hkeys : ∀ k, k < 16 → s.keys k = 0) :
    next_instruction rnd s = .ok s ∧ ∀ rnds, run rnds s = .ok s := by
  have hstep : ∀ r, next_instruction r s = .ok s := by
    intro r
    obtain ⟨h1, h2, _⟩ := next_instruction_of_fetch r s opcode s1 hf
    have hnone : get_pressed_key { s with pc := s.pc + 2 } = -1 :=
      get_pressed_key_loop_none _ KEYS (Nat.le_refl _) (fun j _ hj => hkeys j hj)
    have hpc : ((((s.pc + 2 : Nat) : Int) - 2) % 65536).toNat = s.pc := by
      simp only [MEMORY_SIZE] at h2
      omega
    rw [h1]
    simp only [decode_execute, hmsb, decode_op_f, hc8, get_key, hnone, if_true, hpc]
  refine ⟨hstep rnd, ?_⟩
  intro rnds
  induction rnds with
  | nil => rfl
  | cons r rest ih => simp only [run, hstep r, ih]

/-- Witness of `get_key_waits`: `F30A` at the program counter of a state with
no key pressed. -/
theorem get_key_waits_witness :
    next_instruction 0 (with_instruction 0xF3 0x0A) = .ok (with_instruction 0xF3 0x0A) ∧
    run [0, 1, 2] (with_instruction 0xF3 0x0A) = .ok (with_instruction 0xF3 0x0A) :=
  ⟨(get_key_waits 0 (with_instruction 0xF3 0x0A) 0xF30A
      { with_instruction 0xF3 0x0A with pc := 2 } rfl (by decide) (by decide)
      (fun _ _ => rfl)).1,
   (get_key_waits 0 (with_instruction 0xF3 0x0A) 0xF30A
      { with_instruction 0xF3 0x0A with pc := 2 } rfl (by decide) (by decide)
      (fun _ _ => rfl)).2 [0, 1, 2]⟩

/-- C13. In a state with some key flag set and the program counter at an
`FX0A` instruction, `next_instruction` returns a state in which register `X`
holds the smallest index `k` in 0..15 whose key flag is set, every other
register is as before, the program counter is the pre-fetch value plus 2, and
nothing else has changed. -/
theorem get_key_pressed (rnd : Nat) (s : Chip8) (opcode : Nat) (s1 : Chip8)
    (hf : fetch s = .ok (opcode, s1))
    (hmsb : op_msb opcode = 0xf) (hc8 : op_const8 opcode = 0x0a)
    (k : Nat) (hk : k < 16) (hset : s.keys k ≠ 0) (hfirst : ∀ j, j < k → s.keys j = 0) :
    ∃ s2, next_instruction rnd s = .ok s2 ∧
      s2.v (op_x opcode) = k ∧ (∀ j, j ≠ op_x opcode → s2.v j = s.v j) ∧
      s2.pc = s.pc + 2 ∧
      s2.memory = s.memory ∧ s2.screen = s.screen ∧ s2.i = s.i ∧ s2.stack = s.stack ∧
      s2.delay_timer = s.delay_timer ∧ s2.sound_timer = s.sound_timer ∧
      s2.keys = s.keys := by
  obtain ⟨h1, _, _⟩ := next_instruction_of_fetch rnd s opcode s1 hf
  have hkey : get_pressed_key { s with pc := s.pc + 2 } = (k : Int) :=
    get_pressed_key_loop_first _ k hk hset KEYS (Nat.le_refl _)
      (by simp only [KEYS]; omega) (fun j _ hj => hfirst j hj)
  have hne : ¬ ((k : Int) = -1) := by omega
  have hstep : next_instruction rnd s
      = .ok (set_v (op_x opcode) k { s with pc := s.pc + 2 }) := by
    rw [h1]
    simp only [decode_execute, hmsb, decode_op_f, hc8, get_key, hkey, if_neg hne,
      Int.toNat_ofNat]
  refine ⟨_, hstep, ?_, ?_, rfl, rfl, rfl, rfl, rfl, rfl, rfl, rfl⟩
  · simp only [set_v, Function.update_apply, if_true]
    omega
  · intro j hj
    simp only [set_v, Function.update_apply, if_neg hj]

/-- Witness of `get_key_pressed`: `F30A` with the keys 5 and 9 pressed puts 5
into register 3. -/
theorem get_key_pressed_witness :
    ∃ s2, next_instruction 0
        { with_instruction 0xF3 0x0A with keys := fun j => if j = 5 ∨ j = 9 then 1 else 0 }
        = .ok s2 ∧ s2.v 3 = 5 ∧ s2.pc = 2 := by
  obtain ⟨s2, h1, h2, _, h3, _⟩ := get_key_pressed 0
    { with_instruction 0xF3 0x0A with keys := fun j => if j = 5 ∨ j = 9 then 1 else 0 }
    0xF30A
    { with_instruction 0xF3 0x0A with
      keys := fun j => if j = 5 ∨ j = 9 then 1 else 0
      pc := 2 }
    rfl (by decide) (by decide) 5 (by decide) (by decide)
    (fun j hj => by
      have h5 : ¬ (j = 5 ∨ j = 9) := by omega
      show (if j = 5 ∨ j = 9 then 1 else 0) = 0
      rw [if_neg h5])
  exact ⟨s2, h1, h2, h3⟩

/-! ## Fields of an instruction word -/

theorem op_msb_eq (opcode : Nat) : op_msb opcode = opcode / 4096 % 16 := by
  unfold op_msb
  rw [Nat.shiftRight_eq_div_pow]
  exact Nat.and_pow_two_sub_one_eq_mod (opcode / 2 ^ 12) 4

theorem op_addr_eq (opcode : Nat) : op_addr opcode = opcode % 4096 :=
  Nat.and_pow_two_sub_one_eq_mod opcode 12

theorem op_const8_eq (opcode : Nat) : op_const8 opcode = opcode % 256 :=
  Nat.and_pow_two_sub_one_eq_mod opcode 8

theorem op_const4_eq (opcode : Nat) : op_const4 opcode = opcode % 16 :=
  Nat.and_pow_two_sub_one_eq_mod opcode 4

theorem op_x_eq (opcode : Nat) : op_x opcode = opcode / 256 % 16 := by
  unfold op_x
  rw [Nat.shiftRight_eq_div_pow]
  exact Nat.and_pow_two_sub_one_eq_mod (opcode / 2 ^ 8) 4

theorem op_y_eq (opcode : Nat) : op_y opcode = opcode / 16 % 16 := by
  unfold op_y
  rw [Nat.shiftRight_eq_div_pow]
  exact Nat.and_pow_two_sub_one_eq_mod (opcode / 2 ^ 4) 4

/-! ## Call and return -/

/-- C14. For a 12-bit address `A`, the call `2NNN` with `NNN = A`, run by the
handler in a state with program counter `P`, sets the program counter to `A`
and pushes `P`; the return `00EE` run in the resulting state, or in any later
state whose stack is what the call left, sets the program counter to `P` and
leaves the stack as it was before the call. -/
theorem call_ret_round_trip (A rnd rnd2 : Nat) (s : Chip8) (hA : A < 0x1000) :
    ∃ s1, decode_execute (0x2000 + A) rnd s = .ok s1 ∧
      s1.pc = A ∧ s1.stack = s.stack ++ [s.pc] ∧
      (∃ s3, decode_execute 0x00EE rnd2 s1 = .ok s3 ∧ s3.pc = s.pc ∧ s3.stack = s.stack) ∧
      (∀ s2 : Chip8, s2.stack = s1.stack →
        ∃ s3, decode_execute 0x00EE rnd2 s2 = .ok s3 ∧ s3.pc = s.pc ∧ s3.stack = s.stack) := by
  have hmsb : op_msb (0x2000 + A) = 2 := by rw [op_msb_eq]; omega
  have haddr : op_addr (0x2000 + A) = A := by rw [op_addr_eq]; omega
  have hcall : decode_execute (0x2000 + A) rnd s = .ok (call A s) := by
    simp only [decode_execute, hmsb, haddr]
  have hret : ∀ s2 : Chip8, s2.stack = (call A s).stack →
      ∃ s3, decode_execute 0x00EE rnd2 s2 = .ok s3 ∧ s3.pc = s.pc ∧ s3.stack = s.stack := by
    intro s2 hs2
    have h1 : s2.stack = s.stack ++ [s.pc] := hs2
    have h2 : decode_execute 0x00EE rnd2 s2 = ret s2 := rfl
    have h3 : ret s2 = .ok { s2 with pc := s.pc, stack := s.stack } := by
      simp [ret, h1]
    exact ⟨_, h2.trans h3, rfl, rfl⟩
  exact ⟨call A s, hcall, rfl, rfl, hret _ rfl, hret⟩

/-- Witness of `call_ret_round_trip`: `2ABC` from program counter `0x202`, then
`00EE`. -/
theorem call_ret_round_trip_witness :
    ∃ s1, decode_execute 0x2ABC 0 { blank with pc := 0x202, stack := [0x300] } = .ok s1 ∧
      s1.pc = 0xABC ∧ s1.stack = [0x300, 0x202] ∧
      ∃ s3, decode_execute 0x00EE 0 s1 = .ok s3 ∧ s3.pc = 0x202 ∧ s3.stack = [0x300] := by
  obtain ⟨s1, h1, h2, h3, h4, _⟩ :=
    call_ret_round_trip 0xABC 0 0 { blank with pc := 0x202, stack := [0x300] } (by decide)
  exact ⟨s1, h1, h2, h3, h4⟩

/-! ## Store BCD, register dump and register load -/

/-- C15. For the instruction `FX33` with a byte `v` in register `X` and
`index + 2` inside memory: afterwards `memory[index]`, `memory[index + 1]`,
`memory[index + 2]` are the hundreds, tens and ones digits of `v`, at most 2, 9
and 9, with `100 * memory[index] + 10 * memory[index + 1] + memory[index + 2]
= v`; no other memory byte, no register and no other member changes. -/
theorem store_decimal_spec (opcode rnd : Nat) (s : Chip8)
    (hmsb : op_msb opcode = 0xf) (hc8 : op_const8 opcode = 0x33)
    (hv : s.v (op_x opcode) < 256) (hin : s.i + 2 < MEMORY_SIZE) :
    ∃ s1, decode_execute opcode rnd s = .ok s1 ∧
      s1.memory s.i = s.v (op_x opcode) / 100 ∧
      s1.memory (s.i + 1) = s.v (op_x opcode) / 10 % 10 ∧
      s1.memory (s.i + 2) = s.v (op_x opcode) % 10 ∧
      s1.memory s.i ≤ 2 ∧ s1.memory (s.i + 1) ≤ 9 ∧ s1.memory (s.i + 2) ≤ 9 ∧
      100 * s1.memory s.i + 10 * s1.memory (s.i + 1) + s1.memory (s.i + 2)
        = s.v (op_x opcode) ∧
      (∀ a, a ≠ s.i → a ≠ s.i + 1 → a ≠ s.i + 2 → s1.memory a = s.memory a) ∧
      s1.v = s.v ∧ s1.screen = s.screen ∧ s1.pc = s.pc ∧ s1.i = s.i ∧
      s1.stack = s.stack ∧ s1.delay_timer = s.delay_timer ∧
      s1.sound_timer = s.sound_timer ∧ s1.keys = s.keys := by
  have h0 : s.i < MEMORY_SIZE := by omega
  have h1 : s.i + 1 < MEMORY_SIZE := by omega
  have hd : decode_execute opcode rnd s = .ok
      { s with
        memory := Function.update (Function.update (Function.update s.memory s.i
            (s.v (op_x opcode) / 100 % 256)) (s.i + 1) (s.v (op_x opcode) / 10 % 10 % 256))
          (s.i + 2) (s.v (op_x opcode) % 10 % 256) } := by
    simp only [decode_execute, hmsb, decode_op_f, hc8, store_decimal, write_memory, if_pos h0,
      if_pos h1, if_pos hin]
  have m0 : (Function.update (Function.update (Function.update s.memory s.i
            (s.v (op_x opcode) / 100 % 256)) (s.i + 1) (s.v (op_x opcode) / 10 % 10 % 256))
          (s.i + 2) (s.v (op_x opcode) % 10 % 256)) s.i = s.v (op_x opcode) / 100 := by
    have e1 : s.i ≠ s.i + 2 := by omega
    have e2 : s.i ≠ s.i + 1 := by omega
    simp only [Function.update_apply, if_neg e1, if_neg e2, if_true]
    omega
  have m1 : (Function.update (Function.update (Function.update s.memory s.i
            (s.v (op_x opcode) / 100 % 256)) (s.i + 1) (s.v (op_x opcode) / 10 % 10 % 256))
          (s.i + 2) (s.v (op_x opcode) % 10 % 256)) (s.i + 1)
        = s.v (op_x opcode) / 10 % 10 := by
    have e1 : s.i + 1 ≠ s.i + 2 := by omega
    simp only [Function.update_apply, if_neg e1, if_true]
    omega
  have m2 : (Function.update (Function.update (Function.update s.memory s.i
            (s.v (op_x opcode) / 100 % 256)) (s.i + 1) (s.v (op_x opcode) / 10 % 10 % 256))
          (s.i + 2) (s.v (op_x opcode) % 10 % 256)) (s.i + 2) = s.v (op_x opcode) % 10 := by
    simp only [Function.update_apply, if_true]
    omega
  refine ⟨_, hd, m0, m1, m2, ?_, ?_, ?_, ?_, ?_, rfl, rfl, rfl, rfl, rfl, rfl, rfl, rfl⟩
  · dsimp only
    rw [m0]
    omega
  · dsimp only
    rw [m1]
    omega
  · dsimp only
    rw [m2]
    omega
  · dsimp only
    rw [m0, m1, m2]
    omega
  · intro a a0 a1 a2
    dsimp only
    simp only [Function.update_apply, if_neg a0, if_neg a1, if_neg a2]

/-- Witness of `store_decimal_spec`: `F033` with register 0 holding 157 and the
index register at `0x300` stores 1, 5, 7. -/
theorem store_decimal_spec_witness :
    ∃ s1, decode_execute 0xF033 0 store_bcd_state = .ok s1 ∧
      s1.memory 0x300 = 1 ∧ s1.memory 0x301 = 5 ∧ s1.memory 0x302 = 7 := by
  obtain ⟨s1, h1, h2, h3, h4, _⟩ := store_decimal_spec 0xF033 0 store_bcd_state
    (by decide) (by decide) (by decide) (by decide)
  exact ⟨s1, h1, h2.trans rfl, h3.trans rfl, h4.trans rfl⟩

theorem dump_v_loop_spec (n : Nat) : ∀ (k : Nat) (s : Chip8),
    s.i + n ≤ MEMORY_SIZE →
    ∃ s1, dump_v_loop (List.range' k n) s = .ok s1 ∧
      s1.i = s.i + n ∧
      (∀ j, j < n → s1.memory (s.i + j) = s.v (k + j) % 256) ∧
      (∀ a, a < s.i ∨ s.i + n ≤ a → s1.memory a = s.memory a) ∧
      s1.v = s.v ∧ s1.screen = s.screen ∧ s1.pc = s.pc ∧ s1.stack = s.stack ∧
      s1.delay_timer = s.delay_timer ∧ s1.sound_timer = s.sound_timer ∧
      s1.keys = s.keys := by
  induction n with
  | zero =>
    intro k s _
    exact ⟨s, rfl, rfl, fun j hj => absurd hj (Nat.not_lt_zero j), fun _ _ => rfl,
      rfl, rfl, rfl, rfl, rfl, rfl, rfl⟩
  | succ n ih =>
    intro k s h
    have h1 : s.i < MEMORY_SIZE := by omega
    have h2 : (s.i + 1) % 65536 = s.i + 1 := by
      apply Nat.mod_eq_of_lt
      simp only [MEMORY_SIZE] at h1
      omega
    obtain ⟨s1, e1, e2, e3, e4, e5, e6, e7, e8, e9, e10, e11⟩ := ih (k + 1)
      { s with memory := Function.update s.memory s.i (s.v k % 256), i := s.i + 1 }
      (by show s.i + 1 + n ≤ MEMORY_SIZE; omega)
    refine ⟨s1, ?_, ?_, ?_, ?_, e5, e6, e7, e8, e9, e10, e11⟩
    · simp only [List.range', dump_v_loop, write_memory, if_pos h1, h2]
      exact e1
    · rw [e2]
      show s.i + 1 + n = s.i + (n + 1)
      omega
    · intro j hj
      cases j with
      | zero =>
        rw [e4 (s.i + 0) (Or.inl (by show s.i + 0 < s.i + 1; omega))]
        show Function.update s.memory s.i (s.v k % 256) (s.i + 0) = s.v (k + 0) % 256
        simp only [Nat.add_zero, Function.update_same]
      | succ j =>
        have h3 := e3 j (by omega)
        have h4 : s.i + (j + 1) = s.i + 1 + j := by omega
        have h5 : k + (j + 1) = k + 1 + j := by omega
        rw [h4, h5]
        exact h3
    · intro a ha
      have h3 : a ≠ s.i := by omega
      rw [e4 a (by
        show a < s.i + 1 ∨ s.i + 1 + n ≤ a
        omega)]
      show Function.update s.memory s.i (s.v k % 256) a = s.memory a
      simp only [Function.update_apply, if_neg h3]

theorem load_v_loop_spec (n : Nat) : ∀ (k : Nat) (s : Chip8),
    s.i + n ≤ MEMORY_SIZE →
    ∃ s1, load_v_loop (List.range' k n) s = .ok s1 ∧
      s1.i = s.i + n ∧
      (∀ j, j < n → s1.v (k + j) = s.memory (s.i + j) % 256) ∧
      (∀ r, r < k ∨ k + n ≤ r → s1.v r = s.v r) ∧
      s1.memory = s.memory ∧ s1.screen = s.screen ∧ s1.pc = s.pc ∧ s1.stack = s.stack ∧
      s1.delay_timer = s.delay_timer ∧ s1.sound_timer = s.sound_timer ∧
      s1.keys = s.keys := by
  induction n with
  | zero =>
    intro k s _
    exact ⟨s, rfl, rfl, fun j hj => absurd hj (Nat.not_lt_zero j), fun _ _ => rfl,
      rfl, rfl, rfl, rfl, rfl, rfl, rfl⟩
  | succ n ih =>
    intro k s h
    have h1 : s.i < MEMORY_SIZE := by omega
    have h2 : (s.i + 1) % 65536 = s.i + 1 := by
      apply Nat.mod_eq_of_lt
      simp only [MEMORY_SIZE] at h1
      omega
    obtain ⟨s1, e1, e2, e3, e4, e5, e6, e7, e8, e9, e10, e11⟩ := ih (k + 1)
      (set_v k (s.memory s.i) { s with i := s.i + 1 })
      (by show s.i + 1 + n ≤ MEMORY_SIZE; omega)
    refine ⟨s1, ?_, ?_, ?_, ?_, e5, e6, e7, e8, e9, e10, e11⟩
    · simp only [List.range', load_v_loop, read_memory, if_pos h1, h2]
      exact e1
    · rw [e2]
      show s.i + 1 + n = s.i + (n + 1)
      omega
    · intro j hj
      cases j with
      | zero =>
        rw [e4 (k + 0) (Or.inl (by omega))]
        show Function.update s.v k (s.memory s.i % 256) (k + 0) = s.memory (s.i + 0) % 256
        simp only [Nat.add_zero, Function.update_same]
      | succ j =>
        have h3 := e3 j (by omega)
        have h4 : s.i + (j + 1) = s.i + 1 + j := by omega
        have h5 : k + (j + 1) = k + 1 + j := by omega
        rw [h4, h5]
        exact h3
    · intro r hr
      have h3 : r ≠ k := by omega
      rw [e4 r (by omega)]
      show Function.update s.v k (s.memory s.i % 256) r = s.v r
      simp only [Function.update_apply, if_neg h3]

/-- C16. For `X` the register field and `index + X` inside memory: the dump
`FX55` sets `memory[index + k]` to register `k` for every `k ≤ X`, changes no
other memory byte and no register and leaves the index register at
`index + X + 1`; the load `FX65` sets register `k` to `memory[index + k]` for
every `k ≤ X`, changes no register above `X` and no memory and leaves the index
register at `index + X + 1`; and a load run later from the start address of the
dump, on the memory the dump left, gives registers `0..X` the values they had at
the dump. -/
theorem dump_load_spec (opd opl rnd : Nat) (s : Chip8)
    (hdm : op_msb opd = 0xf) (hdc : op_const8 opd = 0x55)
    (hlm : op_msb opl = 0xf) (hlc : op_const8 opl = 0x65)
    (hx : op_x opl = op_x opd) (hin : s.i + op_x opd < MEMORY_SIZE)
    (hv : ∀ k, k ≤ op_x opd → s.v k < 256)
    (hmb : ∀ k, k ≤ op_x opd → s.memory (s.i + k) < 256) :
    (∃ s1, decode_execute opd rnd s = .ok s1 ∧
      (∀ k, k ≤ op_x opd → s1.memory (s.i + k) = s.v k) ∧
      (∀ a, a < s.i ∨ s.i + op_x opd < a → s1.memory a = s.memory a) ∧
      s1.v = s.v ∧ s1.i = s.i + op_x opd + 1 ∧
      (∀ s2 : Chip8, s2.i = s.i → s2.memory = s1.memory →
        ∃ s3, decode_execute opl rnd s2 = .ok s3 ∧ ∀ k, k ≤ op_x opd → s3.v k = s.v k)) ∧
    (∃ s4, decode_execute opl rnd s = .ok s4 ∧
      (∀ k, k ≤ op_x opd → s4.v k = s.memory (s.i + k)) ∧
      (∀ k, op_x opd < k → s4.v k = s.v k) ∧
      s4.memory = s.memory ∧ s4.i = s.i + op_x opd + 1) := by
  have hdump : ∀ t : Chip8, decode_execute opd rnd t
      = dump_v_loop (List.range' 0 (op_x opd + 1)) t := by
    intro t
    simp only [decode_execute, hdm, decode_op_f, hdc, dump_v, List.range_eq_range']
  have hload : ∀ t : Chip8, decode_execute opl rnd t
      = load_v_loop (List.range' 0 (op_x opd + 1)) t := by
    intro t
    simp only [decode_execute, hlm, decode_op_f, hlc, load_v, List.range_eq_range', hx]
  obtain ⟨s1, d1, d2, d3, d4, d5, _⟩ := dump_v_loop_spec (op_x opd + 1) 0 s (by omega)
  obtain ⟨s4, l1, l2, l3, l4, l5, _⟩ := load_v_loop_spec (op_x opd + 1) 0 s (by omega)
  have hmem1 : ∀ k, k ≤ op_x opd → s1.memory (s.i + k) = s.v k := by
    intro k hk
    rw [d3 k (by omega), Nat.zero_add]
    exact Nat.mod_eq_of_lt (hv k hk)
  refine ⟨⟨s1, (hdump s).trans d1, hmem1, ?_, d5, by rw [d2]; omega, ?_⟩,
    ⟨s4, (hload s).trans l1, ?_, ?_, l5, by rw [l2]; omega⟩⟩
  · intro a ha
    exact d4 a (by omega)
  · intro s2 hi2 hm2
    obtain ⟨s3, r1, _, r3, _⟩ := load_v_loop_spec (op_x opd + 1) 0 s2 (by omega)
    refine ⟨s3, (hload s2).trans r1, ?_⟩
    intro k hk
    have h1 := r3 k (by omega)
    rw [Nat.zero_add, hi2, hm2, hmem1 k hk] at h1
    rw [h1]
    exact Nat.mod_eq_of_lt (hv k hk)
  · intro k hk
    have h1 := l3 k (by omega)
    rw [Nat.zero_add] at h1
    rw [h1]
    exact Nat.mod_eq_of_lt (hmb k hk)
  · intro k hk
    exact l4 k (Or.inr (by omega))

/-- Witness of `dump_load_spec`: `F255` on registers 10, 11, 12 at index
register `0x300`, then `F265` from `0x300` after the registers were cleared. -/
theorem dump_load_spec_witness :
    ∃ s1, decode_execute 0xF255 0 dump_state = .ok s1 ∧
      s1.memory 0x301 = 11 ∧ s1.i = 0x303 ∧
      ∃ s3, decode_execute 0xF265 0 { s1 with v := fun _ => 0, i := 0x300 } = .ok s3 ∧
        s3.v 2 = 12 := by
  obtain ⟨⟨s1, h1, h2, _, _, h5, h6⟩, _⟩ := dump_load_spec 0xF255 0xF265 0 dump_state
    (by decide) (by decide) (by decide) (by decide) (by decide) (by decide)
    (fun k _ => by
      show (if k < 16 then k + 10 else 0) < 256
      split <;> omega)
    (fun _ _ => by
      show (0 : Nat) < 256
      decide)
  obtain ⟨s3, h7, h8⟩ := h6 { s1 with v := fun _ => 0, i := 0x300 } rfl rfl
  exact ⟨s1, h1, (h2 1 (by decide)).trans rfl, h5.trans rfl, s3, h7,
    (h8 2 (by decide)).trans rfl⟩

/-! ## Unknown instruction words -/

theorem decode_execute_unknown (opcode rnd : Nat) (s : Chip8) (hu : unknown_opcode opcode) :
    decode_execute opcode rnd s = .ok s := by
  rcases hu with ⟨hm, h1, h2⟩ | ⟨hm, h1, h2⟩ | ⟨hm, h1, h2⟩ |
    ⟨hm, h1, h2, h3, h4, h5, h6, h7, h8, h9⟩
  · simp only [decode_execute, hm, decode_op_0]
  · simp only [decode_execute, hm, decode_op_8]
    split <;> first
      | rfl
      | (rename_i h; exfalso; omega)
  · simp only [decode_execute, hm, decode_op_e]
  · simp only [decode_execute, hm, decode_op_f]

/-- C17. When the instruction word at the program counter matches no handler,
`next_instruction` returns the state it was given with the program counter at
the pre-fetch value plus 2 and every other member (memory, registers, index
register, stack, timers, key state, framebuffer) as before. -/
theorem unknown_opcode_is_noop (rnd : Nat) (s : Chip8) (opcode : Nat) (s1 : Chip8)
    (hf : fetch s = .ok (opcode, s1)) (hu : unknown_opcode opcode) :
    next_instruction rnd s = .ok { s with pc := s.pc + 2 } := by
  obtain ⟨h1, _, _⟩ := next_instruction_of_fetch rnd s opcode s1 hf
  rw [h1]
  exact decode_execute_unknown opcode rnd _ hu

/-- Witness of `unknown_opcode_is_noop`: the words `0123`, `8129`, `E100` and
`F1FF` at the program counter. -/
theorem unknown_opcode_is_noop_witness :
    next_instruction 0 (with_instruction 0x01 0x23)
      = .ok { with_instruction 0x01 0x23 with pc := 2 } ∧
    next_instruction 0 (with_instruction 0x81 0x29)
      = .ok { with_instruction 0x81 0x29 with pc := 2 } ∧
    next_instruction 0 (with_instruction 0xE1 0x00)
      = .ok { with_instruction 0xE1 0x00 with pc := 2 } ∧
    next_instruction 0 (with_instruction 0xF1 0xFF)
      = .ok { with_instruction 0xF1 0xFF with pc := 2 } :=
  ⟨unknown_opcode_is_noop 0 (with_instruction 0x01 0x23) 0x0123
      { with_instruction 0x01 0x23 with pc := 2 } rfl
      (Or.inl ⟨by decide, by decide, by decide⟩),
   unknown_opcode_is_noop 0 (with_instruction 0x81 0x29) 0x8129
      { with_instruction 0x81 0x29 with pc := 2 } rfl
      (Or.inr (Or.inl ⟨by decide, by decide, by decide⟩)),
   unknown_opcode_is_noop 0 (with_instruction 0xE1 0x00) 0xE100
      { with_instruction 0xE1 0x00 with pc := 2 } rfl
      (Or.inr (Or.inr (Or.inl ⟨by decide, by decide, by decide⟩))),
   unknown_opcode_is_noop 0 (with_instruction 0xF1 0xFF) 0xF1FF
      { with_instruction 0xF1 0xFF with pc := 2 } rfl
      (Or.inr (Or.inr (Or.inr ⟨by decide, by decide, by decide, by decide, by decide,
        by decide, by decide, by decide, by decide, by decide⟩)))⟩

/-! ## Fetch and the advance of the program counter -/

theorem fetch_word (s : Chip8) (hp : s.pc + 1 < MEMORY_SIZE)
    (hb0 : s.memory s.pc < 256) (hb1 : s.memory (s.pc + 1) < 256) :
    fetch s = .ok (256 * s.memory s.pc + s.memory (s.pc + 1),
      { s with pc := (s.pc + 2) % 65536 }) := by
  have h0 : s.pc < MEMORY_SIZE := by omega
  have h1 : (s.memory s.pc <<< 8 ||| s.memory (s.pc + 1))
      = 256 * s.memory s.pc + s.memory (s.pc + 1) := by
    rw [Nat.shiftLeft_eq, Nat.mul_comm]
    exact (Nat.mul_add_lt_is_or (by exact hb1 : s.memory (s.pc + 1) < 2 ^ 8) _).symm
  have h2 : (256 * s.memory s.pc + s.memory (s.pc + 1)) % 65536
      = 256 * s.memory s.pc + s.memory (s.pc + 1) := by
    apply Nat.mod_eq_of_lt
    omega
  simp only [fetch, read_memory, if_pos h0, if_pos hp, h1, h2]

theorem op_x_lt (opcode : Nat) : op_x opcode < 16 := by
  rw [op_x_eq]
  omega

theorem draw_pixel_frame (x y r line c : Nat) (s : Chip8) :
    (draw_pixel x y r line c s).pc = s.pc ∧ (draw_pixel x y r line c s).i = s.i ∧
    (draw_pixel x y r line c s).memory = s.memory := by
  unfold draw_pixel
  dsimp only
  split
  · split <;> exact ⟨rfl, rfl, rfl⟩
  · exact ⟨rfl, rfl, rfl⟩

theorem draw_line_frame (x y r line : Nat) (s : Chip8) :
    (draw_line x y r line s).pc = s.pc ∧ (draw_line x y r line s).i = s.i ∧
    (draw_line x y r line s).memory = s.memory := by
  have h : ∀ (l : List Nat) (t : Chip8),
      (l.foldl (fun s xsprite => draw_pixel x y r line xsprite s) t).pc = t.pc ∧
      (l.foldl (fun s xsprite => draw_pixel x y r line xsprite s) t).i = t.i ∧
      (l.foldl (fun s xsprite => draw_pixel x y r line xsprite s) t).memory = t.memory := by
    intro l
    induction l with
    | nil => intro t; exact ⟨rfl, rfl, rfl⟩
    | cons c rest ih =>
      intro t
      obtain ⟨h1, h2, h3⟩ := ih (draw_pixel x y r line c t)
      obtain ⟨h4, h5, h6⟩ := draw_pixel_frame x y r line c t
      exact ⟨h1.trans h4, h2.trans h5, h3.trans h6⟩
  exact h (List.range 8) s

theorem draw_rows_frame (x y : Nat) (rows : List Nat) : ∀ (s s2 : Chip8),
    draw_rows x y rows s = .ok s2 →
    s2.pc = s.pc ∧ s2.i = s.i ∧ s2.memory = s.memory := by
  induction rows with
  | nil =>
    intro s s2 h
    cases h
    exact ⟨rfl, rfl, rfl⟩
  | cons r rest ih =>
    intro s s2 h
    unfold draw_rows read_memory at h
    by_cases h1 : s.i + r < MEMORY_SIZE
    · simp only [if_pos h1] at h
      obtain ⟨h2, h3, h4⟩ := ih _ s2 h
      obtain ⟨h5, h6, h7⟩ := draw_line_frame x y r (s.memory (s.i + r)) s
      exact ⟨h2.trans h5, h3.trans h6, h4.trans h7⟩
    · simp [if_neg h1] at h

theorem draw_rows_returns (x y : Nat) (rows : List Nat) : ∀ (s : Chip8),
    (∀ r, r ∈ rows → s.i + r < MEMORY_SIZE) → ∃ s2, draw_rows x y rows s = .ok s2 := by
  induction rows with
  | nil => intro s _; exact ⟨s, rfl⟩
  | cons r rest ih =>
    intro s h
    have h1 : s.i + r < MEMORY_SIZE := h r (List.mem_cons_self r rest)
    have hi := (draw_line_frame x y r (s.memory (s.i + r)) s).2.1
    obtain ⟨s2, h2⟩ := ih (draw_line x y r (s.memory (s.i + r)) s)
      (fun q hq => by rw [hi]; exact h q (List.mem_cons_of_mem r hq))
    exact ⟨s2, by simp only [draw_rows, read_memory, if_pos h1]; exact h2⟩

theorem dump_v_loop_pc (ks : List Nat) : ∀ (s s2 : Chip8),
    dump_v_loop ks s = .ok s2 → s2.pc = s.pc := by
  induction ks with
  | nil => intro s s2 h; cases h; rfl
  | cons k rest ih =>
    intro s s2 h
    unfold dump_v_loop write_memory at h
    by_cases h1 : s.i < MEMORY_SIZE
    · simp only [if_pos h1] at h
      have h2 := ih _ s2 h
      exact h2
    · simp [if_neg h1] at h

theorem load_v_loop_pc (ks : List Nat) : ∀ (s s2 : Chip8),
    load_v_loop ks s = .ok s2 → s2.pc = s.pc := by
  induction ks with
  | nil => intro s s2 h; cases h; rfl
  | cons k rest ih =>
    intro s s2 h
    unfold load_v_loop read_memory at h
    by_cases h1 : s.i < MEMORY_SIZE
    · simp only [if_pos h1] at h
      have h2 := ih _ s2 h
      exact h2
    · simp [if_neg h1] at h

theorem store_decimal_pc (x : Nat) (s s2 : Chip8) (h : store_decimal x s = .ok s2) :
    s2.pc = s.pc := by
  unfold store_decimal write_memory at h
  by_cases h0 : s.i < MEMORY_SIZE
  · by_cases h1 : s.i + 1 < MEMORY_SIZE
    · by_cases h2 : s.i + 2 < MEMORY_SIZE
      · simp only [if_pos h0, if_pos h1, if_pos h2] at h
        cases h
        rfl
      · simp [if_pos h0, if_pos h1, if_neg h2] at h
    · simp [if_pos h0, if_neg h1] at h
  · simp [if_neg h0] at h

theorem decode_execute_pc (opcode rnd : Nat) (s s2 : Chip8)
    (hcf : ¬ control_flow_opcode opcode) (h : decode_execute opcode rnd s = .ok s2) :
    s2.pc = s.pc := by
  unfold control_flow_opcode at hcf
  dsimp only [decode_execute] at h
  split at h
  all_goals try (exfalso; omega)
  · dsimp only [decode_op_0] at h
    split at h
    · cases h; rfl
    · exfalso; omega
    · cases h; rfl
  · cases h; rfl
  · cases h; rfl
  · dsimp only [decode_op_8] at h
    split at h <;> (cases h; rfl)
  · cases h; rfl
  · cases h; rfl
  · exact (draw_rows_frame _ _ _ _ s2 h).1
  · dsimp only [decode_op_e] at h
    split at h
    · exfalso; omega
    · exfalso; omega
    · cases h; rfl
  · dsimp only [decode_op_f] at h
    split at h
    all_goals try (exfalso; omega)
    all_goals try (cases h; rfl)
    · exact store_decimal_pc _ _ _ h
    · exact dump_v_loop_pc _ _ _ h
    · exact load_v_loop_pc _ _ _ h
  · cases h; rfl

theorem decode_execute_returns (opcode rnd : Nat) (s : Chip8)
    (hcf : ¬ control_flow_opcode opcode) (hi : s.i + 15 < MEMORY_SIZE) :
    ∃ s2, decode_execute opcode rnd s = .ok s2 := by
  unfold control_flow_opcode at hcf
  have hx := op_x_lt opcode
  have hn := op_const4_lt opcode
  dsimp only [decode_execute]
  split
  all_goals try exact ⟨_, rfl⟩
  · dsimp only [decode_op_0]
    split
    · exact ⟨_, rfl⟩
    · exfalso; omega
    · exact ⟨_, rfl⟩
  · apply draw_rows_returns
    intro r hr
    have h1 : r < op_const4 opcode := List.mem_range.mp hr
    show s.i + r < MEMORY_SIZE
    omega
  · dsimp only [decode_op_e]
    split
    · exfalso; omega
    · exfalso; omega
    · exact ⟨_, rfl⟩
  · dsimp only [decode_op_f]
    split
    all_goals try exact ⟨_, rfl⟩
    · exact store_decimal_in_bounds _ s (by omega)
    · exact dump_v_loop_in_bounds _ s (by rw [List.length_range]; omega)
    · obtain ⟨s2, h2, _⟩ := load_v_loop_spec (op_x opcode + 1) 0 s (by omega)
      exact ⟨s2, by rw [load_v, List.range_eq_range']; exact h2⟩

/-- C18. In a state with program counter `p`, `p + 1` inside memory and bytes in
`memory[p]`, `memory[p + 1]`, `next_instruction` runs the handler of the word
`256 * memory[p] + memory[p + 1]` in the state with the program counter advanced
to `(p + 2) mod 65536`; when that word is not a control-flow instruction, the
state the step returns has program counter `(p + 2) mod 65536`, and the step
does return when `index + 15` is inside memory, which keeps the memory accesses
of draw, store-BCD, dump and load inside the array. -/
theorem fetch_and_advance (rnd : Nat) (s : Chip8) (hp : s.pc + 1 < MEMORY_SIZE)
    (hb0 : s.memory s.pc < 256) (hb1 : s.memory (s.pc + 1) < 256) :
    next_instruction rnd s
      = decode_execute (256 * s.memory s.pc + s.memory (s.pc + 1)) rnd
          { s with pc := (s.pc + 2) % 65536 } ∧
    (¬ control_flow_opcode (256 * s.memory s.pc + s.memory (s.pc + 1)) →
      (∀ s2, next_instruction rnd s = .ok s2 → s2.pc = (s.pc + 2) % 65536) ∧
      (s.i + 15 < MEMORY_SIZE →
        ∃ s2, next_instruction rnd s = .ok s2 ∧ s2.pc = (s.pc + 2) % 65536)) := by
  have hstep : next_instruction rnd s
      = decode_execute (256 * s.memory s.pc + s.memory (s.pc + 1)) rnd
          { s with pc := (s.pc + 2) % 65536 } := by
    simp only [next_instruction, fetch_word s hp hb0 hb1]
  refine ⟨hstep, fun hcf => ⟨?_, ?_⟩⟩
  · intro s2 h2
    rw [hstep] at h2
    exact decode_execute_pc _ rnd _ s2 hcf h2
  · intro hi
    obtain ⟨s2, h2⟩ := decode_execute_returns (256 * s.memory s.pc + s.memory (s.pc + 1)) rnd
      { s with pc := (s.pc + 2) % 65536 } hcf hi
    exact ⟨s2, hstep.trans h2, decode_execute_pc _ rnd _ s2 hcf h2⟩

/-- Witness of `fetch_and_advance`: the bytes `0x61`, `0x07` at the program
counter 0 are run as `6107`, which sets register 1 to 7 and leaves the program
counter at 2. -/
theorem fetch_and_advance_witness :
    next_instruction 0 (with_instruction 0x61 0x07)
      = decode_execute 0x6107 0 { with_instruction 0x61 0x07 with pc := 2 } ∧
    ∃ s2, next_instruction 0 (with_instruction 0x61 0x07) = .ok s2 ∧ s2.pc = 2 :=
  ⟨(fetch_and_advance 0 (with_instruction 0x61 0x07) (by decide) (by decide) (by decide)).1,
   ((fetch_and_advance 0 (with_instruction 0x61 0x07) (by decide) (by decide) (by decide)).2
      (by
        unfold control_flow_opcode
        decide)).2 (by decide)⟩

/-! ## Drawing the same sprite twice -/

theorem draw_inv_final (x y n : Nat) (s : Chip8) (hx : x ≤ 14) (hy : y ≤ 14)
    (hn : n ≤ 16) (hmem : s.i + n ≤ MEMORY_SIZE) :
    ∃ s1, draw x y n s = .ok s1 ∧ DrawInv s x y (8 * n) s1 := by
  have hinit : DrawInv s x y (8 * 0) (set_v 15 0 s) := by
    unfold DrawInv
    refine ⟨rfl, rfl, rfl, rfl, rfl, rfl, rfl, ?_, ?_, ?_, ?_, ?_⟩
    · intro k hk
      simp only [set_v, Function.update_apply, if_neg hk]
    · intro r c _ hlt
      omega
    · intro idx _
      rfl
    · rintro ⟨r, c, _, hlt, _⟩
      omega
    · intro _
      simp only [set_v, Function.update_apply, if_true]
  obtain ⟨s1, h1, h2⟩ := draw_rows_inv s x y hx hy n 0 (set_v 15 0 s) (by omega) (by omega)
    hinit
  refine ⟨s1, ?_, ?_⟩
  · rw [draw, List.range_eq_range']
    exact h1
  · rw [Nat.zero_add] at h2
    exact h2

/-- C11. For the instruction `DXY1` with `X ≤ 14`, `Y ≤ 14`, the sprite byte
`memory[index]` having the single bit `7 - c` set (`c < 8`), and the target
cell `((vx + c) mod 64, (vy) mod 32)` clear: the first draw sets the cell and
leaves the flag register 0; the same draw run again clears the cell and leaves
the flag register 1. -/
theorem draw_single_bit_twice (opcode rnd rnd2 : Nat) (s : Chip8) (c : Nat)
    (hmsb : op_msb opcode = 0xd) (hn : op_const4 opcode = 1)
    (hx : op_x opcode ≤ 14) (hy : op_y opcode ≤ 14)
    (hi : s.i < MEMORY_SIZE) (hc : c < 8) (hbyte : s.memory s.i = 2 ^ (7 - c))
    (hclear : s.screen (sprite_cell (s.v (op_x opcode)) (s.v (op_y opcode)) 0 c) = false) :
    ∃ s1 s2, decode_execute opcode rnd s = .ok s1 ∧
      s1.screen (sprite_cell (s.v (op_x opcode)) (s.v (op_y opcode)) 0 c) = true ∧
      s1.v 15 = 0 ∧
      decode_execute opcode rnd2 s1 = .ok s2 ∧
      s2.screen (sprite_cell (s.v (op_x opcode)) (s.v (op_y opcode)) 0 c) = false ∧
      s2.v 15 = 1 := by
  have hd : ∀ (r : Nat) (t : Chip8), decode_execute opcode r t
      = draw (op_x opcode) (op_y opcode) 1 t := by
    intro r t
    simp only [decode_execute, hmsb, hn]
  have hbit : ∀ t : Chip8, t.memory = s.memory → t.i = s.i →
      ∀ c2, c2 < 8 → (sprite_bit t 0 c2 = true ↔ c2 = c) := by
    intro t hm hti c2 hc2
    simp only [sprite_bit, hm, hti, Nat.add_zero, hbyte, Nat.testBit_two_pow, decide_eq_true_eq]
    omega
  obtain ⟨s1, e1, inv1⟩ := draw_inv_final (op_x opcode) (op_y opcode) 1 s hx hy (by omega)
    (by omega)
  unfold DrawInv at inv1
  obtain ⟨am, ai, _, _, _, _, _, av, aA, _, _, aC0⟩ := inv1
  have hi1 : s1.i < MEMORY_SIZE := by rw [ai]; exact hi
  obtain ⟨s2, e2, inv2⟩ := draw_inv_final (op_x opcode) (op_y opcode) 1 s1 hx hy (by omega)
    (by omega)
  unfold DrawInv at inv2
  obtain ⟨_, _, _, _, _, _, _, _, bA, _, bC1, _⟩ := inv2
  have hvx : s1.v (op_x opcode) = s.v (op_x opcode) := av _ (by omega)
  have hvy : s1.v (op_y opcode) = s.v (op_y opcode) := av _ (by omega)
  rw [hvx, hvy] at bA bC1
  have hb0 : sprite_bit s 0 c = true := (hbit s rfl rfl c hc).mpr rfl
  have hb1 : sprite_bit s1 0 c = true := (hbit s1 am ai c hc).mpr rfl
  have hset1 : s1.screen (sprite_cell (s.v (op_x opcode)) (s.v (op_y opcode)) 0 c) = true := by
    rw [aA 0 c hc (by omega) hb0, hclear]
    rfl
  refine ⟨s1, s2, (hd rnd s).trans e1, hset1, ?_, (hd rnd2 s1).trans e2, ?_, ?_⟩
  · apply aC0
    rintro ⟨r, c2, hc2, hlt, hb, hs⟩
    have hr : r = 0 := by omega
    subst hr
    have hcc : c2 = c := (hbit s rfl rfl c2 hc2).mp hb
    subst hcc
    rw [hclear] at hs
    exact Bool.noConfusion hs
  · rw [bA 0 c hc (by omega) hb1, hset1]
    rfl
  · exact bC1 ⟨0, c, hc, by omega, hb1, hset1⟩

/-- Witness of `draw_single_bit_twice`: `D011` with `V0 = 62`, `V1 = 30` and
the sprite byte `0x20`, whose only set bit is in column 2, so that the target
cell is column `(62 + 2) mod 64 = 0` of row 30. -/
theorem draw_single_bit_twice_witness :
    ∃ s1 s2, decode_execute 0xD011 0 single_bit_state = .ok s1 ∧
      s1.screen (30 * 64 + 0) = true ∧ s1.v 15 = 0 ∧
      decode_execute 0xD011 0 s1 = .ok s2 ∧
      s2.screen (30 * 64 + 0) = false ∧ s2.v 15 = 1 :=
  draw_single_bit_twice 0xD011 0 0 single_bit_state 2
    (by decide) (by decide) (by decide) (by decide) (by decide) (by decide) rfl rfl

/-! ## Skips on a key -/

/-- C21, as stated, fails for a register value above 15: with `V0 = 16` the
skips `E09E` and `E0A1` subscript `_keys[16]`, outside the 16-entry array. -/
theorem skip_key_reads_outside_keys :
    op_msb 0xE09E = 0xe ∧ op_const8 0xE09E = 0x9e ∧ op_x 0xE09E = 0 ∧
    op_msb 0xE0A1 = 0xe ∧ op_const8 0xE0A1 = 0xa1 ∧ op_x 0xE0A1 = 0 ∧
    (set_v 0 16 blank).v 0 = 16 ∧ KEYS = 16 ∧
    decode_execute 0xE09E 0 (set_v 0 16 blank) = .error (.oob_key 16) ∧
    decode_execute 0xE0A1 0 (set_v 0 16 blank) = .error (.oob_key 16) :=
  ⟨rfl, rfl, rfl, rfl, rfl, rfl, rfl, rfl, rfl, rfl⟩

/-- C21, amended to register values in 0..15. With `EX9E` or `EXA1` at the
program counter and register `X` holding `k < 16`, the step reads the key flag
`k`, inside the key array, and returns: `EX9E` leaves the program counter at
the pre-fetch value plus 4 when key `k` is pressed and plus 2 otherwise, `EXA1`
the other way round; nothing else changes. -/
theorem skip_key_spec (rnd : Nat) (s : Chip8) (opcode : Nat) (s1 : Chip8)
    (hf : fetch s = .ok (opcode, s1)) (hmsb : op_msb opcode = 0xe)
    (hc8 : op_const8 opcode = 0x9e ∨ op_const8 opcode = 0xa1)
    (hk : s.v (op_x opcode) < 16) :
    ∃ s2, next_instruction rnd s = .ok s2 ∧
      (op_const8 opcode = 0x9e →
        s2.pc = if s.keys (s.v (op_x opcode)) ≠ 0 then s.pc + 4 else s.pc + 2) ∧
      (op_const8 opcode = 0xa1 →
        s2.pc = if s.keys (s.v (op_x opcode)) ≠ 0 then s.pc + 2 else s.pc + 4) ∧
      s2.memory = s.memory ∧ s2.screen = s.screen ∧ s2.v = s.v ∧ s2.i = s.i ∧
      s2.stack = s.stack ∧ s2.delay_timer = s.delay_timer ∧
      s2.sound_timer = s.sound_timer ∧ s2.keys = s.keys := by
  obtain ⟨h1, h2, _⟩ := next_instruction_of_fetch rnd s opcode s1 hf
  have hk2 : s.v (op_x opcode) < KEYS := hk
  have hpc : (s.pc + 2 + 2) % 65536 = s.pc + 4 := by
    simp only [MEMORY_SIZE] at h2
    omega
  rcases hc8 with hc | hc
  · have hne : op_const8 opcode ≠ 0xa1 := by omega
    by_cases hp : s.keys (s.v (op_x opcode)) ≠ 0
    · refine ⟨{ s with pc := s.pc + 4 }, ?_, fun _ => by rw [if_pos hp],
        fun h => absurd h hne, rfl, rfl, rfl, rfl, rfl, rfl, rfl, rfl⟩
      rw [h1]
      simp only [decode_execute, hmsb, decode_op_e, hc, skip_key_eq, if_pos hk2, if_pos hp, hpc]
    · refine ⟨{ s with pc := s.pc + 2 }, ?_, fun _ => by rw [if_neg hp],
        fun h => absurd h hne, rfl, rfl, rfl, rfl, rfl, rfl, rfl, rfl⟩
      rw [h1]
      simp only [decode_execute, hmsb, decode_op_e, hc, skip_key_eq, if_pos hk2, if_neg hp]
  · have hne : op_const8 opcode ≠ 0x9e := by omega
    by_cases hp : s.keys (s.v (op_x opcode)) ≠ 0
    · have hp2 : ¬ (s.keys (s.v (op_x opcode)) = 0) := hp
      refine ⟨{ s with pc := s.pc + 2 }, ?_, fun h => absurd h hne,
        fun _ => by rw [if_pos hp], rfl, rfl, rfl, rfl, rfl, rfl, rfl, rfl⟩
      rw [h1]
      simp only [decode_execute, hmsb, decode_op_e, hc, skip_key_neq, if_pos hk2, if_neg hp2]
    · have hp2 : s.keys (s.v (op_x opcode)) = 0 := by
        by_contra h
        exact hp h
      refine ⟨{ s with pc := s.pc + 4 }, ?_, fun h => absurd h hne,
        fun _ => by rw [if_neg hp], rfl, rfl, rfl, rfl, rfl, rfl, rfl, rfl⟩
      rw [h1]
      simp only [decode_execute, hmsb, decode_op_e, hc, skip_key_neq, if_pos hk2, if_pos hp2,
        hpc]

/-- Witness of `skip_key_spec`: `E39E` with register 3 holding 5 and key 5
pressed skips to program counter 4. -/
theorem skip_key_spec_witness :
    ∃ s2, next_instruction 0
        { with_instruction 0xE3 0x9E with
          v := fun k => if k = 3 then 5 else 0
          keys := fun j => if j = 5 then 1 else 0 } = .ok s2 ∧
      s2.pc = 4 := by
  obtain ⟨s2, h1, h2, _⟩ := skip_key_spec 0
    { with_instruction 0xE3 0x9E with
      v := fun k => if k = 3 then 5 else 0
      keys := fun j => if j = 5 then 1 else 0 }
    0xE39E
    { with_instruction 0xE3 0x9E with
      v := fun k => if k = 3 then 5 else 0
      keys := fun j => if j = 5 then 1 else 0
      pc := 2 }
    rfl (by decide) (Or.inl (by decide)) (by decide)
  exact ⟨s2, h1, (h2 (by decide)).trans rfl⟩

/-! ## Draw is an involution on the framebuffer -/

/-- C22. For the instruction `DXYN` with `X ≤ 14`, `Y ≤ 14` and the `N` sprite
bytes inside memory: the draw returns and leaves the index register, the memory
and the registers `X`, `Y` as they were, so the same instruction run again draws
the same sprite at the same place; it returns too, and the framebuffer after
the second draw is the framebuffer before the first. No two sprite bits of one
draw map to the same cell. -/
theorem draw_twice_restores (opcode rnd rnd2 : Nat) (s : Chip8)
    (hmsb : op_msb opcode = 0xd) (hx : op_x opcode ≤ 14) (hy : op_y opcode ≤ 14)
    (hmem : s.i + op_const4 opcode ≤ MEMORY_SIZE) :
    ∃ s1 s2, decode_execute opcode rnd s = .ok s1 ∧
      s1.i = s.i ∧ s1.memory = s.memory ∧
      s1.v (op_x opcode) = s.v (op_x opcode) ∧ s1.v (op_y opcode) = s.v (op_y opcode) ∧
      decode_execute opcode rnd2 s1 = .ok s2 ∧
      s2.screen = s.screen ∧
      (∀ r c r2 c2, r < op_const4 opcode → r2 < op_const4 opcode → c < 8 → c2 < 8 →
        sprite_cell (s.v (op_x opcode)) (s.v (op_y opcode)) r c
          = sprite_cell (s.v (op_x opcode)) (s.v (op_y opcode)) r2 c2 →
        r = r2 ∧ c = c2) := by
  have hn := op_const4_lt opcode
  have hd : ∀ (r : Nat) (t : Chip8), decode_execute opcode r t
      = draw (op_x opcode) (op_y opcode) (op_const4 opcode) t := by
    intro r t
    simp only [decode_execute, hmsb]
  obtain ⟨s1, e1, inv1⟩ := draw_inv_final (op_x opcode) (op_y opcode) (op_const4 opcode) s
    hx hy (by omega) hmem
  unfold DrawInv at inv1
  obtain ⟨am, ai, _, _, _, _, _, av, aA, aB, _, _⟩ := inv1
  obtain ⟨s2, e2, inv2⟩ := draw_inv_final (op_x opcode) (op_y opcode) (op_const4 opcode) s1
    hx hy (by omega) (by rw [ai]; exact hmem)
  unfold DrawInv at inv2
  obtain ⟨_, _, _, _, _, _, _, _, bA, bB, _, _⟩ := inv2
  have hvx : s1.v (op_x opcode) = s.v (op_x opcode) := av _ (by omega)
  have hvy : s1.v (op_y opcode) = s.v (op_y opcode) := av _ (by omega)
  have hbit : ∀ r c, sprite_bit s1 r c = sprite_bit s r c := by
    intro r c
    simp only [sprite_bit, am, ai]
  rw [hvx, hvy] at bA bB
  refine ⟨s1, s2, (hd rnd s).trans e1, ai, am, hvx, hvy, (hd rnd2 s1).trans e2, ?_, ?_⟩
  · funext idx
    by_cases h : ∃ r c, c < 8 ∧ 8 * r + c < 8 * op_const4 opcode ∧ sprite_bit s r c = true ∧
        idx = sprite_cell (s.v (op_x opcode)) (s.v (op_y opcode)) r c
    · obtain ⟨r, c, hc, hlt, hb, hidx⟩ := h
      rw [hidx, bA r c hc hlt ((hbit r c).trans hb), aA r c hc hlt hb, Bool.not_not]
    · have hfree : ∀ r c, c < 8 → 8 * r + c < 8 * op_const4 opcode →
          sprite_bit s r c = true →
          idx ≠ sprite_cell (s.v (op_x opcode)) (s.v (op_y opcode)) r c :=
        fun r c hc hlt hb hidx => h ⟨r, c, hc, hlt, hb, hidx⟩
      rw [bB idx (fun r c hc hlt hb => hfree r c hc hlt ((hbit r c).symm.trans hb)),
        aB idx hfree]
  · intro r c r2 c2 hr hr2 hc hc2 heq
    exact sprite_cell_inj _ _ r c r2 c2 (by omega) (by omega) hc hc2 heq

/-- Witness of `draw_twice_restores`: the glyph of 0 drawn twice with `D015` at
column 62, row 30 of a fresh engine leaves the screen empty. -/
theorem draw_twice_restores_witness :
    ∃ s1 s2, decode_execute 0xD015 0 draw_state = .ok s1 ∧
      decode_execute 0xD015 0 s1 = .ok s2 ∧ s2.screen = draw_state.screen := by
  obtain ⟨s1, s2, h1, _, _, _, _, h2, h3, _⟩ := draw_twice_restores 0xD015 0 0 draw_state
    (by decide) (by decide) (by decide) (by decide)
  exact ⟨s1, s2, h1, h2, h3⟩

/-! ## What changes memory -/

theorem skip_eq_memory (x c : Nat) (s : Chip8) : (skip_eq x c s).memory = s.memory := by
  unfold skip_eq
  split <;> rfl

theorem skip_neq_memory (x c : Nat) (s : Chip8) : (skip_neq x c s).memory = s.memory := by
  unfold skip_neq
  split <;> rfl

theorem skip_eq_x_y_memory (x y : Nat) (s : Chip8) :
    (skip_eq_x_y x y s).memory = s.memory := by
  unfold skip_eq_x_y
  split <;> rfl

theorem skip_neq_x_y_memory (x y : Nat) (s : Chip8) :
    (skip_neq_x_y x y s).memory = s.memory := by
  unfold skip_neq_x_y
  split <;> rfl

theorem get_key_memory (x : Nat) (s : Chip8) : (get_key x s).memory = s.memory := by
  unfold get_key
  dsimp only
  split <;> rfl

theorem decode_op_8_memory (x y c4 : Nat) (s : Chip8) :
    (decode_op_8 x y c4 s).memory = s.memory := by
  unfold decode_op_8
  split <;> rfl

theorem ret_memory (s s2 : Chip8) (h : ret s = .ok s2) : s2.memory = s.memory := by
  unfold ret at h
  split at h
  · simp at h
  · cases h
    rfl

theorem skip_key_eq_memory (x : Nat) (s s2 : Chip8) (h : skip_key_eq x s = .ok s2) :
    s2.memory = s.memory := by
  unfold skip_key_eq at h
  split at h
  · cases h
    split <;> rfl
  · simp at h

theorem skip_key_neq_memory (x : Nat) (s s2 : Chip8) (h : skip_key_neq x s = .ok s2) :
    s2.memory = s.memory := by
  unfold skip_key_neq at h
  split at h
  · cases h
    split <;> rfl
  · simp at h

theorem load_v_loop_memory (ks : List Nat) : ∀ (s s2 : Chip8),
    load_v_loop ks s = .ok s2 → s2.memory = s.memory := by
  induction ks with
  | nil => intro s s2 h; cases h; rfl
  | cons k rest ih =>
    intro s s2 h
    unfold load_v_loop read_memory at h
    by_cases h1 : s.i < MEMORY_SIZE
    · simp only [if_pos h1] at h
      have h2 := ih _ s2 h
      exact h2
    · simp [if_neg h1] at h

theorem decode_execute_memory (opcode rnd : Nat) (s s2 : Chip8)
    (hnot : ¬ (op_msb opcode = 0xf ∧ (op_const8 opcode = 0x33 ∨ op_const8 opcode = 0x55)))
    (h : decode_execute opcode rnd s = .ok s2) : s2.memory = s.memory := by
  dsimp only [decode_execute] at h
  split at h
  · dsimp only [decode_op_0] at h
    split at h
    · cases h; rfl
    · exact ret_memory s s2 h
    · cases h; rfl
  · cases h; rfl
  · cases h; rfl
  · cases h; exact skip_eq_memory _ _ s
  · cases h; exact skip_neq_memory _ _ s
  · cases h; exact skip_eq_x_y_memory _ _ s
  · cases h; rfl
  · cases h; rfl
  · cases h; exact decode_op_8_memory _ _ _ s
  · cases h; exact skip_neq_x_y_memory _ _ s
  · cases h; rfl
  · cases h; rfl
  · cases h; rfl
  · exact (draw_rows_frame _ _ _ _ s2 h).2.2
  · dsimp only [decode_op_e] at h
    split at h
    · exact skip_key_eq_memory _ s s2 h
    · exact skip_key_neq_memory _ s s2 h
    · cases h; rfl
  · dsimp only [decode_op_f] at h
    split at h
    · cases h; rfl
    · cases h; exact get_key_memory _ s
    · cases h; rfl
    · cases h; rfl
    · cases h; rfl
    · cases h; rfl
    · exfalso; omega
    · exfalso; omega
    · exact load_v_loop_memory _ s s2 h
    · cases h; rfl
  · cases h; rfl

theorem decode_execute_returns_all (opcode rnd : Nat) (s : Chip8)
    (hi : s.i + 15 < MEMORY_SIZE) (hst : s.stack ≠ []) (hk : s.v (op_x opcode) < KEYS) :
    ∃ s2, decode_execute opcode rnd s = .ok s2 := by
  have hx := op_x_lt opcode
  have hn := op_const4_lt opcode
  dsimp only [decode_execute]
  split
  all_goals try exact ⟨_, rfl⟩
  · dsimp only [decode_op_0]
    split
    · exact ⟨_, rfl⟩
    · unfold ret
      split
      · rename_i hnone
        exact absurd (List.getLast?_eq_none_iff.mp hnone) hst
      · exact ⟨_, rfl⟩
    · exact ⟨_, rfl⟩
  · apply draw_rows_returns
    intro r hr
    have h1 : r < op_const4 opcode := List.mem_range.mp hr
    show s.i + r < MEMORY_SIZE
    omega
  · dsimp only [decode_op_e]
    split
    · unfold skip_key_eq
      rw [if_pos hk]
      exact ⟨_, rfl⟩
    · unfold skip_key_neq
      rw [if_pos hk]
      exact ⟨_, rfl⟩
    · exact ⟨_, rfl⟩
  · dsimp only [decode_op_f]
    split
    all_goals try exact ⟨_, rfl⟩
    · exact store_decimal_in_bounds _ s (by omega)
    · exact dump_v_loop_in_bounds _ s (by rw [List.length_range]; omega)
    · obtain ⟨s2, h2, _⟩ := load_v_loop_spec (op_x opcode + 1) 0 s (by omega)
      exact ⟨s2, by rw [load_v, List.range_eq_range']; exact h2⟩

/-- C23. When the instruction word at the program counter is neither store-BCD
(`FX33`) nor register dump (`FX55`), the state `next_instruction` returns has
the memory it was given, and the step never writes outside the array either; it
does return when `index + 15` is inside memory, the stack is not empty and
register `X` holds a key index below 16. `decrease_timers` leaves memory as it
was, and so do `key_pressed` and `key_released`, which return for a key index
below 16. -/
theorem memory_frame (rnd : Nat) (s : Chip8) (opcode : Nat) (s1 : Chip8) (key : Nat)
    (hf : fetch s = .ok (opcode, s1))
    (hnot : ¬ (op_msb opcode = 0xf ∧ (op_const8 opcode = 0x33 ∨ op_const8 opcode = 0x55))) :
    (∀ s2, next_instruction rnd s = .ok s2 → s2.memory = s.memory) ∧
    (∀ a, next_instruction rnd s ≠ .error (.oob_write a)) ∧
    (s.i + 15 < MEMORY_SIZE → s.stack ≠ [] → s.v (op_x opcode) < 16 →
      ∃ s2, next_instruction rnd s = .ok s2 ∧ s2.memory = s.memory) ∧
    (decrease_timers s).memory = s.memory ∧
    (∀ s2, key_pressed key s = .ok s2 → s2.memory = s.memory) ∧
    (∀ s2, key_released key s = .ok s2 → s2.memory = s.memory) ∧
    (key < 16 → ∃ s2 s3, key_pressed key s = .ok s2 ∧ s2.memory = s.memory ∧
      key_released key s = .ok s3 ∧ s3.memory = s.memory) := by
  obtain ⟨h1, _, _⟩ := next_instruction_of_fetch rnd s opcode s1 hf
  have hmem : ∀ s2, next_instruction rnd s = .ok s2 → s2.memory = s.memory := by
    intro s2 h2
    rw [h1] at h2
    have h3 := decode_execute_memory opcode rnd _ s2 hnot h2
    exact h3
  refine ⟨hmem, ?_, ?_, ?_, ?_, ?_, ?_⟩
  · intro a
    rw [h1]
    exact decode_execute_no_oob_write opcode rnd _
      (fun hm hc => absurd ⟨hm, Or.inl hc⟩ hnot)
      (fun hm hc => absurd ⟨hm, Or.inr hc⟩ hnot) a
  · intro hi hst hk
    obtain ⟨s2, h2⟩ := decode_execute_returns_all opcode rnd { s with pc := s.pc + 2 } hi hst hk
    exact ⟨s2, h1.trans h2, hmem s2 (h1.trans h2)⟩
  · unfold decrease_timers
    dsimp only
    split <;> split <;> rfl
  · intro s2 h2
    unfold key_pressed at h2
    split at h2
    · cases h2
      rfl
    · simp at h2
  · intro s2 h2
    unfold key_released at h2
    split at h2
    · cases h2
      rfl
    · simp at h2
  · intro hkey
    have hk : key < KEYS := hkey
    have hp : key_pressed key s = .ok { s with keys := Function.update s.keys key 1 } := by
      simp only [key_pressed, if_pos hk]
    have hr : key_released key s = .ok { s with keys := Function.update s.keys key 0 } := by
      simp only [key_released, if_pos hk]
    exact ⟨_, _, hp, rfl, hr, rfl⟩

/-- Witness of `memory_frame`: the step `6107`, a timer tick and key 3 going
down leave the two instruction bytes in memory. -/
theorem memory_frame_witness :
    (∃ s2, next_instruction 0 { with_instruction 0x61 0x07 with stack := [0x200] } = .ok s2 ∧
      s2.memory 0 = 0x61 ∧ s2.memory 1 = 0x07) ∧
    ∃ s3, key_pressed 3 { with_instruction 0x61 0x07 with stack := [0x200] } = .ok s3 ∧
      s3.memory 0 = 0x61 := by
  obtain ⟨_, _, h3, _, _, _, h7⟩ := memory_frame 0
    { with_instruction 0x61 0x07 with stack := [0x200] } 0x6107
    { with_instruction 0x61 0x07 with stack := [0x200], pc := 2 } 3 rfl (by decide)
  obtain ⟨s2, h4, h5⟩ := h3 (by decide) (by decide) (by decide)
  obtain ⟨s3, _, h8, h9, _⟩ := h7 (by decide)
  exact ⟨⟨s2, h4, by rw [h5]; rfl, by rw [h5]; rfl⟩, s3, h8, by rw [h9]; rfl⟩

end tools.chip8
